import Mathlib

/-!
# Paging: TLB, page table and address translator

A shallow embedding of `tlb.c`, `page_table.c` and `memory_manager.c`, with the address
decomposition of `extract_pageNum_and_offset.c` and the table-only translator of
`tempCodeRunnerFile.c`.

Conventions of the embedding.

* `unsigned int` values are `Nat`, `int` and `time_t` values are `Int`.
* The global array `tlb[TLB_ENTRIES]` is a function `Fin TLB_ENTRIES → TLBEntry`, the global
  array `page_table[NUM_PAGES]` a function `Fin NUM_PAGES → Int`.
* Every call of `time(NULL)` is an explicit argument carrying the value read, in program order.
* A `for` loop is a recursive function over its index `i`; the extra `fuel` argument counts the
  remaining iterations and is started at the loop bound, so it never runs out before `i` reaches
  the bound.
* An array access whose index is a function argument returns `none` when the index is outside the
  array (undefined behaviour in C).
-/

namespace Paging

/-! ## Constants -/

/-- The `TLB_ENTRIES` constant of `tlb.h`. -/
abbrev TLB_ENTRIES : Nat := 16

/-- The `NUM_PAGES` constant of `page_table.h`. -/
abbrev NUM_PAGES : Nat := 256

/-- The `FRAME_NUMBER_NOT_FOUND` constant of `page_table.h` and `tlb.c`. -/
abbrev FRAME_NUMBER_NOT_FOUND : Int := -1

/-- Modelled from the spec: `memory_manager.h`, which defines `PAGE_SIZE`, is not among the
sources; the value 256 is the one the spec fixes (and the one `tempCodeRunnerFile.c` defines). -/
abbrev PAGE_SIZE : Int := 256

/-! ## tlb.h / tlb.c -/

/-- The `TLBEntry` struct of `tlb.h`. -/
structure TLBEntry where
  page_number : Nat
  frame_number : Int
  last_accessed : Int
  valid : Int
  deriving DecidableEq, Repr

/-- The global `tlb` array. -/
abbrev TLB := Fin TLB_ENTRIES → TLBEntry

/-- The assignment of all four fields of `tlb[index]`; `index` is the `int` the C code indexes
with. An index outside the array writes nothing here; `update_tlb_index_range` shows that
`update_tlb` never produces one. -/
def TLB.write (tlb : TLB) (index : Int) (e : TLBEntry) : TLB :=
  fun j => if (j.val : Int) = index then e else tlb j

/-- The function `initialize_tlb`: every slot gets page 0, frame `FRAME_NUMBER_NOT_FOUND`,
timestamp 0 and `valid = 0`, whatever the array held before. -/
def initialize_tlb (_tlb : TLB) : TLB :=
  fun _ => { page_number := 0, frame_number := FRAME_NUMBER_NOT_FOUND, last_accessed := 0, valid := 0 }

/-- The loop of `consult_tlb` from index `i` on, with the locals `lru_index` and `oldest_time`.
`now_hit` is the value `time(NULL)` returns on a hit. The result is the returned frame number and
the array after the call. -/
def consult_tlb_loop (page_number : Nat) (now_hit : Int) (tlb : TLB) :
    Nat → Nat → Int → Int → Int × TLB
  | 0, _, _, _ => (FRAME_NUMBER_NOT_FOUND, tlb)
  | fuel + 1, i, lru_index, oldest_time =>
    if h : i < TLB_ENTRIES then
      if (tlb ⟨i, h⟩).valid ≠ 0 ∧ (tlb ⟨i, h⟩).page_number = page_number then
        ((tlb ⟨i, h⟩).frame_number,
          Function.update tlb ⟨i, h⟩ { tlb ⟨i, h⟩ with last_accessed := now_hit })
      else if (tlb ⟨i, h⟩).valid ≠ 0 ∧
          (lru_index = -1 ∨ (tlb ⟨i, h⟩).last_accessed < oldest_time) then
        consult_tlb_loop page_number now_hit tlb fuel (i + 1) i (tlb ⟨i, h⟩).last_accessed
      else
        consult_tlb_loop page_number now_hit tlb fuel (i + 1) lru_index oldest_time
    else (FRAME_NUMBER_NOT_FOUND, tlb)

/-- The function `consult_tlb`. `now_entry` is the reading of `time(NULL)` on entry (stored in
`oldest_time`), `now_hit` the reading taken when an entry matches. -/
def consult_tlb (page_number : Nat) (now_entry now_hit : Int) (tlb : TLB) : Int × TLB :=
  consult_tlb_loop page_number now_hit tlb TLB_ENTRIES 0 (-1) now_entry

/-- The loop of `update_tlb` from index `i` on; the result is `lru_index` when the loop is left
(by `break` or by reaching `TLB_ENTRIES`). -/
def update_tlb_loop (tlb : TLB) : Nat → Nat → Int → Int → Int
  | 0, _, lru_index, _ => lru_index
  | fuel + 1, i, lru_index, oldest_time =>
    if h : i < TLB_ENTRIES then
      if (tlb ⟨i, h⟩).valid = 0 then
        (i : Int)
      else if (tlb ⟨i, h⟩).last_accessed < oldest_time then
        update_tlb_loop tlb fuel (i + 1) i (tlb ⟨i, h⟩).last_accessed
      else
        update_tlb_loop tlb fuel (i + 1) lru_index oldest_time
    else lru_index

/-- The slot `update_tlb` writes: the result of its loop, replaced by 0 when it is still -1. -/
def update_tlb_index (now_scan : Int) (tlb : TLB) : Int :=
  let lru_index := update_tlb_loop tlb TLB_ENTRIES 0 (-1) now_scan
  if lru_index = -1 then 0 else lru_index

/-- The function `update_tlb`. `now_scan` is the reading of `time(NULL)` that initialises
`oldest_time`, `now_write` the reading stored in `last_accessed`. -/
def update_tlb (page_number : Nat) (frame_number : Int) (now_scan now_write : Int)
    (tlb : TLB) : TLB :=
  tlb.write (update_tlb_index now_scan tlb)
    { page_number := page_number, frame_number := frame_number,
      last_accessed := now_write, valid := 1 }

/-! ## page_table.c -/

/-- The global `page_table` array. -/
abbrev PageTable := Fin NUM_PAGES → Int

/-- The function `initialize_page_table`. -/
def initialize_page_table (_page_table : PageTable) : PageTable :=
  fun i => (i.val : Int)

/-- The function `get_frame_number_from_page_table`; `none` when `page_number` is outside the
array. -/
def get_frame_number_from_page_table (page_table : PageTable) (page_number : Nat) : Option Int :=
  if h : page_number < NUM_PAGES then some (page_table ⟨page_number, h⟩) else none

/-- The function `update_page_table`; `none` when `page_number` is outside the array. -/
def update_page_table (page_table : PageTable) (page_number : Nat) (frame_number : Int) :
    Option PageTable :=
  if h : page_number < NUM_PAGES then
    some (Function.update page_table ⟨page_number, h⟩ frame_number)
  else none

/-! ## memory_manager.c -/

/-- The two global arrays the translator works on. -/
structure State where
  tlb : TLB
  page_table : PageTable

/-- The state after `initialize_page_table(); initialize_tlb();` (the start of `main`). -/
def State.init (s : State) : State :=
  { tlb := initialize_tlb s.tlb, page_table := initialize_page_table s.page_table }

/-- The readings of `time(NULL)` one call of `translate_and_access_memory` can take, in program
order: two in `consult_tlb`, two in the `update_tlb` of the page-fault branch, two in the final
`update_tlb`. A reading whose call site is not reached is not used. -/
structure Clock where
  consult_entry : Int
  consult_hit : Int
  fault_scan : Int
  fault_write : Int
  update_scan : Int
  update_write : Int
  deriving DecidableEq, Repr

/-- The readings of a `Clock` in program order. -/
def Clock.readings (c : Clock) : List Int :=
  [c.consult_entry, c.consult_hit, c.fault_scan, c.fault_write, c.update_scan, c.update_write]

/-- What one call of `translate_and_access_memory` computes and logs. -/
structure Access where
  page_number : Nat
  offset : Nat
  /-- The value of `frame_number` when `physical_address` is computed. -/
  frame_number : Int
  /-- Whether the page-fault branch was taken. -/
  page_fault : Bool
  /-- The read `mem[logical_address]` of the page-fault branch (`none` outside `mem`). -/
  fault_value : Option Nat
  physical_address : Nat
  /-- The read `mem[physical_address]` (`none` outside `mem`). -/
  value : Option Nat
  deriving DecidableEq, Repr

/-- The body of `translate_and_access_memory` after `fopen` succeeded. `mem` maps an index to
the byte stored there, `none` outside the mapped region. The outer `none` is an out-of-range
index into `page_table`. The sum `frame_number * PAGE_SIZE + offset` is stored in an
`unsigned int`, hence taken modulo `2 ^ 32`.

The two reads of `mem` are recorded in the `Access` as they are found (`fault_value`, `value`).
A read that finds `none` is outside the store, which is undefined behaviour in C: a result
carrying such a read describes no execution of the C function, and a statement about what a
call does past a read requires the store to hold a byte at the index read. -/
def translate_body (logical_address : Nat) (mem : Nat → Option Nat) (clk : Clock) (s : State) :
    Option (State × Access) := do
  let page_number := (logical_address >>> 8) &&& 0xFF
  let offset := logical_address &&& 0xFF
  let consulted := consult_tlb page_number clk.consult_entry clk.consult_hit s.tlb
  let frame_number ←
    if consulted.1 = FRAME_NUMBER_NOT_FOUND then
      get_frame_number_from_page_table s.page_table page_number
    else some consulted.1
  let faulted ←
    if frame_number = FRAME_NUMBER_NOT_FOUND then
      (update_page_table s.page_table page_number (page_number : Int)).map fun page_table =>
        ((page_number : Int), page_table,
          update_tlb page_number (page_number : Int) clk.fault_scan clk.fault_write consulted.2,
          true, mem logical_address)
    else some (frame_number, s.page_table, consulted.2, false, none)
  let (frame_number, page_table, tlb, page_fault, fault_value) := faulted
  let physical_address := ((frame_number * PAGE_SIZE + (offset : Int)) % 2 ^ 32).toNat
  return ({ tlb := update_tlb page_number frame_number clk.update_scan clk.update_write tlb,
            page_table := page_table },
          { page_number := page_number, offset := offset, frame_number := frame_number,
            page_fault := page_fault, fault_value := fault_value,
            physical_address := physical_address, value := mem physical_address })

/-- The function `translate_and_access_memory`. `file_opened` tells whether `fopen` succeeded;
when it did not the function returns at once, leaving the state as it is (`Access` is `none`). -/
def translate_and_access_memory (file_opened : Bool) (logical_address : Nat)
    (mem : Nat → Option Nat) (clk : Clock) (s : State) : Option (State × Option Access) :=
  if file_opened then
    (translate_body logical_address mem clk s).map fun r => (r.1, some r.2)
  else some (s, none)

/-- One call of `translate_and_access_memory` in a run of the program. -/
structure Call where
  file_opened : Bool
  logical_address : Nat
  clk : Clock

/-- The state after a sequence of `translate_and_access_memory` calls (the loop of
`process_addresses`), over the memory `mem`. -/
def run (mem : Nat → Option Nat) : List Call → State → Option State
  | [], s => some s
  | c :: cs, s =>
    (translate_and_access_memory c.file_opened c.logical_address mem c.clk s).bind
      fun r => run mem cs r.1

/-- The clock never goes back over a whole run. -/
def clockNonDecreasing (cs : List Call) : Prop :=
  List.Pairwise (fun a b => a ≤ b) (cs.flatMap fun c => c.clk.readings)

instance (cs : List Call) : Decidable (clockNonDecreasing cs) := by
  unfold clockNonDecreasing; infer_instance

/-! ## Predicates used to state the properties -/

/-- The hit test of `consult_tlb` on one entry: it is valid and holds `page_number`. -/
def TLBEntry.holds (e : TLBEntry) (page_number : Nat) : Prop :=
  e.valid ≠ 0 ∧ e.page_number = page_number

instance (e : TLBEntry) (page_number : Nat) : Decidable (e.holds page_number) := by
  unfold TLBEntry.holds; infer_instance

/-- The number of valid entries of the TLB. -/
def validCount (tlb : TLB) : Nat :=
  (Finset.univ.filter fun i => (tlb i).valid ≠ 0).card

/-- No two slots hold valid entries with the same page number. -/
def noDuplicatePage (tlb : TLB) : Prop :=
  ∀ i j : Fin TLB_ENTRIES, (tlb i).valid ≠ 0 → (tlb j).valid ≠ 0 →
    (tlb i).page_number = (tlb j).page_number → i = j

instance (tlb : TLB) : Decidable (noDuplicatePage tlb) := by
  unfold noDuplicatePage; infer_instance

/-- The entry `update_tlb` stores. -/
def newEntry (page_number : Nat) (frame_number : Int) (now_write : Int) : TLBEntry :=
  { page_number := page_number, frame_number := frame_number,
    last_accessed := now_write, valid := 1 }

/-- The calls `update_tlb(page 0, frame 0); ...; update_tlb(page (n-1), frame (n-1))` made one
after the other, where `clock k` is the value of the `k`-th call of `time(NULL)` (counted from
0): the `i`-th `update_tlb` reads `clock (2 * i)` and then `clock (2 * i + 1)`. -/
def fill (page : Nat → Nat) (frame : Nat → Int) (clock : Nat → Int) : Nat → TLB → TLB
  | 0, tlb => tlb
  | n + 1, tlb =>
    update_tlb (page n) (frame n) (clock (2 * n)) (clock (2 * n + 1))
      (fill page frame clock n tlb)

/-! ## Concrete states -/

/-- The globals as the C runtime zero-initialises them, before `main` runs. -/
def State.boot : State :=
  { tlb := fun _ => { page_number := 0, frame_number := 0, last_accessed := 0, valid := 0 },
    page_table := fun _ => 0 }

/-- The TLB right after `initialize_tlb`. -/
def freshTLB : TLB := initialize_tlb State.boot.tlb

/-- A TLB whose slot 0 maps page 5 to frame 1 (written at time 100), all other slots invalid. -/
def staleTLB : TLB := update_tlb 5 1 100 100 freshTLB

/-- A full TLB: slot `i` maps page `i` to frame `i`, last accessed at time `i + 1`. -/
def fullTLB : TLB :=
  fun i => { page_number := i.val, frame_number := i.val, last_accessed := i.val + 1, valid := 1 }

/-- Page `i` for the `i`-th access. -/
def idPage : Nat → Nat := fun i => i

/-- Frame `i` for the `i`-th access. -/
def idFrame : Nat → Int := fun i => (i : Int)

/-- A clock that stays within one second: every call of `time(NULL)` returns 100. -/
def tieClock : Nat → Int := fun _ => 100

/-- A clock that advances by one at every call of `time(NULL)`, starting at 100. -/
def tickClock : Nat → Int := fun k => 100 + (k : Int)

/-- Every valid TLB entry maps a page below `NUM_PAGES` to the frame of the same number. -/
def TLB.identityMapped (tlb : TLB) : Prop :=
  ∀ k : Fin TLB_ENTRIES, (tlb k).valid ≠ 0 →
    (tlb k).page_number < NUM_PAGES ∧ (tlb k).frame_number = ((tlb k).page_number : Int)

/-- The page table is the identity mapping and every valid TLB entry agrees with it. -/
def State.identityMapped (s : State) : Prop :=
  (∀ i : Fin NUM_PAGES, s.page_table i = (i.val : Int)) ∧ s.tlb.identityMapped

/-- A memory of `NUM_PAGES * PAGE_SIZE` bytes, all zero. -/
def zeroMem : Nat → Option Nat := fun i => if i < 65536 then some 0 else none

/-- A clock reading record advancing from 100 to 105. -/
def firstClock : Clock :=
  { consult_entry := 100, consult_hit := 101, fault_scan := 102, fault_write := 103,
    update_scan := 104, update_write := 105 }

/-- A clock reading record advancing from 106 to 111. -/
def secondClock : Clock :=
  { consult_entry := 106, consult_hit := 107, fault_scan := 108, fault_write := 109,
    update_scan := 110, update_write := 111 }

/-- Two calls of `translate_and_access_memory(0, mem)`, the clock advancing at every reading. -/
def sameAddressTwice : List Call :=
  [ { file_opened := true, logical_address := 0, clk := firstClock },
    { file_opened := true, logical_address := 0, clk := secondClock } ]

/-- The state after `translate_and_access_memory(256, mem)` from the initial state: the TLB
maps page 1 to frame 1 in slot 0. -/
def warmState : State :=
  { tlb := update_tlb 1 1 104 105 freshTLB,
    page_table := initialize_page_table State.boot.page_table }

/-! ## extract_pageNum_and_offset.c and tempCodeRunnerFile.c -/

/-- The function `extract_page_number_and_offset` of `extract_pageNum_and_offset.c`: the page
number and the offset it computes and prints. -/
def extract_page_number_and_offset (logical_address : Nat) : Nat × Nat :=
  ((logical_address >>> 8) &&& 0xFF, logical_address &&& 0xFF)

/-- The function `translate_and_access_memory` of `tempCodeRunnerFile.c`, which uses the page
table alone. The outer `none` is an out-of-range index into `page_table`; the inner `none` is
the branch that prints "Page fault"; otherwise the result is the physical address and the read
`mem[physical_address]`. -/
def tempCodeRunnerFile.translate_and_access_memory (page_table : PageTable)
    (logical_address : Nat) (mem : Nat → Option Nat) : Option (Option (Nat × Option Nat)) :=
  let page_number := (logical_address >>> 8) &&& 0xFF
  let offset := logical_address &&& 0xFF
  if h : page_number < NUM_PAGES then
    let frame_number := page_table ⟨page_number, h⟩
    if frame_number ≠ FRAME_NUMBER_NOT_FOUND then
      let physical_address := ((frame_number * PAGE_SIZE + (offset : Int)) % 2 ^ 32).toNat
      some (some (physical_address, mem physical_address))
    else some none
  else none

/-- A state with an empty TLB and every page unmapped (the initialisation of
`initializa_page_table.c`). -/
def unmappedState : State :=
  { tlb := freshTLB, page_table := fun _ => FRAME_NUMBER_NOT_FOUND }

/-- The loop of `consult_tlb` over slots none of which is a valid entry for the page: a miss,
and the array is returned as it was. -/
theorem consult_tlb_loop_miss (p : Nat) (nh : Int) (tlb : TLB) :
    ∀ (fuel i : Nat) (lru old : Int),
      (∀ k : Fin TLB_ENTRIES, i ≤ k.val → ¬ (tlb k).holds p) →
      consult_tlb_loop p nh tlb fuel i lru old = (FRAME_NUMBER_NOT_FOUND, tlb) := by
  intro fuel
  induction fuel with
  | zero => intro i lru old _; rfl
  | succ n ih =>
    intro i lru old hk
    unfold consult_tlb_loop
    by_cases h : i < TLB_ENTRIES
    · have hno : ¬ ((tlb ⟨i, h⟩).valid ≠ 0 ∧ (tlb ⟨i, h⟩).page_number = p) :=
        hk ⟨i, h⟩ (le_refl i)
      have hrec : ∀ k : Fin TLB_ENTRIES, i + 1 ≤ k.val → ¬ (tlb k).holds p :=
        fun k hik => hk k (by omega)
      simp only [h, dif_pos, hno, if_false]
      split
      · exact ih _ _ _ hrec
      · exact ih _ _ _ hrec
    · simp only [h, dif_neg, not_false_eq_true]

/-- The loop of `consult_tlb` reaching slot `j`, the first valid entry for the page from `i` on:
the frame of slot `j` is returned and only its timestamp is rewritten. -/
theorem consult_tlb_loop_hit (p : Nat) (nh : Int) (tlb : TLB) (j : Fin TLB_ENTRIES)
    (hj : (tlb j).holds p) :
    ∀ (fuel i : Nat) (lru old : Int), i ≤ j.val → j.val < i + fuel →
      (∀ k : Fin TLB_ENTRIES, i ≤ k.val → k.val < j.val → ¬ (tlb k).holds p) →
      consult_tlb_loop p nh tlb fuel i lru old =
        ((tlb j).frame_number,
          Function.update tlb j
            { page_number := (tlb j).page_number, frame_number := (tlb j).frame_number,
              last_accessed := nh, valid := (tlb j).valid }) := by
  intro fuel
  induction fuel with
  | zero => intro i lru old h1 h2; omega
  | succ n ih =>
    intro i lru old hij hjf hk
    unfold consult_tlb_loop
    have h : i < TLB_ENTRIES := lt_of_le_of_lt hij j.isLt
    by_cases heq : i = j.val
    · have hji : (⟨i, h⟩ : Fin TLB_ENTRIES) = j := Fin.ext heq
      have hyes : (tlb ⟨i, h⟩).valid ≠ 0 ∧ (tlb ⟨i, h⟩).page_number = p := by
        rw [hji]; exact hj
      simp only [h, dif_pos, hyes, and_self, if_true, ne_eq, not_false_eq_true]
      rw [hji, hj.2]
    · have hno : ¬ ((tlb ⟨i, h⟩).valid ≠ 0 ∧ (tlb ⟨i, h⟩).page_number = p) :=
        hk ⟨i, h⟩ (le_refl i) (by simp; omega)
      have hrec : ∀ k : Fin TLB_ENTRIES, i + 1 ≤ k.val → k.val < j.val → ¬ (tlb k).holds p :=
        fun k hik hkj => hk k (by omega) hkj
      simp only [h, dif_pos, hno, if_false]
      split
      · exact ih _ _ _ (by omega) (by omega) hrec
      · exact ih _ _ _ (by omega) (by omega) hrec

/-- Among the slots satisfying a property there is one of lowest index. -/
theorem exists_lowest_slot (P : Fin TLB_ENTRIES → Prop) (h : ∃ i, P i) :
    ∃ j, P j ∧ ∀ k, P k → j ≤ k := by
  obtain ⟨i, hi⟩ := h
  obtain ⟨j, hj, hmin⟩ :=
    (wellFounded_lt : WellFounded (fun a b : Fin TLB_ENTRIES => a < b)).has_min
      {x | P x} ⟨i, hi⟩
  exact ⟨j, hj, fun k hk => not_lt.mp (hmin k hk)⟩

/-- The result of `consult_tlb`: a miss leaves everything as it is and returns
`FRAME_NUMBER_NOT_FOUND`; a hit is served by the lowest-index valid entry for the page, whose
timestamp alone is rewritten. -/
theorem consult_tlb_spec (p : Nat) (ne nh : Int) (tlb : TLB) :
    ((∀ k, ¬ (tlb k).holds p) ∧ consult_tlb p ne nh tlb = (FRAME_NUMBER_NOT_FOUND, tlb)) ∨
      ∃ j, (tlb j).holds p ∧ (∀ k, (tlb k).holds p → j ≤ k) ∧
        consult_tlb p ne nh tlb =
          ((tlb j).frame_number,
          Function.update tlb j
            { page_number := (tlb j).page_number, frame_number := (tlb j).frame_number,
              last_accessed := nh, valid := (tlb j).valid }) := by
  by_cases h : ∃ i, (tlb i).holds p
  · right
    obtain ⟨j, hj, hmin⟩ := exists_lowest_slot (fun i => (tlb i).holds p) h
    refine ⟨j, hj, hmin, ?_⟩
    exact consult_tlb_loop_hit p nh tlb j hj TLB_ENTRIES 0 (-1) ne (Nat.zero_le _)
      (by have := j.isLt; omega)
      (fun k _ hkj hk => absurd (hmin k hk) (not_le.mpr (Fin.lt_def.mpr hkj)))
  · left
    have hno : ∀ k, ¬ (tlb k).holds p := fun k hk => h ⟨k, hk⟩
    exact ⟨hno, consult_tlb_loop_miss p nh tlb TLB_ENTRIES 0 (-1) ne (fun k _ => hno k)⟩

/-- A hit of `consult_tlb`: when some valid entry holds the page, the frame of the lowest-index
such entry is returned. -/
theorem consult_tlb_hit_frame (p : Nat) (ne nh : Int) (tlb : TLB)
    (h : ∃ i, (tlb i).holds p) :
    ∃ j, (tlb j).holds p ∧ (∀ k, (tlb k).holds p → j ≤ k) ∧
      (consult_tlb p ne nh tlb).1 = (tlb j).frame_number := by
  rcases consult_tlb_spec p ne nh tlb with ⟨hno, _⟩ | ⟨j, hj, hmin, hr⟩
  · obtain ⟨i, hi⟩ := h
    exact absurd hi (hno i)
  · exact ⟨j, hj, hmin, by rw [hr]⟩

/-- Writing slot `j` through its `int` index is a pointwise update at `j`. -/
theorem TLB.write_eq_update (tlb : TLB) (j : Fin TLB_ENTRIES) (e : TLBEntry) :
    tlb.write (j.val : Int) e = Function.update tlb j e := by
  funext k
  unfold TLB.write
  by_cases hkj : k = j
  · subst hkj; simp
  · have : ¬ ((k.val : Int) = (j.val : Int)) := by
      intro h; exact hkj (Fin.ext (by exact_mod_cast h))
    simp [this, Function.update_noteq hkj]

/-- The loop of `update_tlb` leaves by `break` at slot `j`, the first invalid slot from `i` on. -/
theorem update_tlb_loop_first_invalid (tlb : TLB) (j : Fin TLB_ENTRIES)
    (hj : (tlb j).valid = 0) :
    ∀ (fuel i : Nat) (lru old : Int), i ≤ j.val → j.val < i + fuel →
      (∀ k : Fin TLB_ENTRIES, i ≤ k.val → k.val < j.val → (tlb k).valid ≠ 0) →
      update_tlb_loop tlb fuel i lru old = (j.val : Int) := by
  intro fuel
  induction fuel with
  | zero => intro i lru old h1 h2; omega
  | succ n ih =>
    intro i lru old hij hjf hk
    unfold update_tlb_loop
    have h : i < TLB_ENTRIES := lt_of_le_of_lt hij j.isLt
    by_cases heq : i = j.val
    · have hji : (⟨i, h⟩ : Fin TLB_ENTRIES) = j := Fin.ext heq
      simp only [h, dif_pos, hji, hj, if_true]
      rw [heq]
    · have hv : (tlb ⟨i, h⟩).valid ≠ 0 := hk ⟨i, h⟩ (le_refl i) (by simp; omega)
      have hrec : ∀ k : Fin TLB_ENTRIES, i + 1 ≤ k.val → k.val < j.val → (tlb k).valid ≠ 0 :=
        fun k hik hkj => hk k (by omega) hkj
      simp only [h, dif_pos, hv, if_false]
      split
      · exact ih _ _ _ (by omega) (by omega) hrec
      · exact ih _ _ _ (by omega) (by omega) hrec

/-- The scan of `update_tlb` over slots that are all valid: either no slot from `i` on is older
than `old` and `lru_index` is returned as it was, or the result is the lowest-index slot among
those with the smallest timestamp from `i` on, and that timestamp is below `old`. -/
theorem update_tlb_loop_all_valid (tlb : TLB) :
    ∀ (fuel i : Nat) (lru old : Int), TLB_ENTRIES ≤ i + fuel →
      (∀ k : Fin TLB_ENTRIES, i ≤ k.val → (tlb k).valid ≠ 0) →
      (update_tlb_loop tlb fuel i lru old = lru ∧
          ∀ k : Fin TLB_ENTRIES, i ≤ k.val → old ≤ (tlb k).last_accessed) ∨
        ∃ m : Fin TLB_ENTRIES, i ≤ m.val ∧ update_tlb_loop tlb fuel i lru old = (m.val : Int) ∧
          (tlb m).last_accessed < old ∧
          (∀ k : Fin TLB_ENTRIES, i ≤ k.val → (tlb m).last_accessed ≤ (tlb k).last_accessed) ∧
          (∀ k : Fin TLB_ENTRIES, i ≤ k.val → k.val < m.val →
            (tlb m).last_accessed < (tlb k).last_accessed) := by
  intro fuel
  induction fuel with
  | zero =>
    intro i lru old hf _
    left
    refine ⟨rfl, fun k hik => ?_⟩
    have := k.isLt
    omega
  | succ n ih =>
    intro i lru old hf hv
    unfold update_tlb_loop
    by_cases h : i < TLB_ENTRIES
    · have hvi : (tlb ⟨i, h⟩).valid ≠ 0 := hv ⟨i, h⟩ (le_refl i)
      have hrec : ∀ k : Fin TLB_ENTRIES, i + 1 ≤ k.val → (tlb k).valid ≠ 0 :=
        fun k hik => hv k (by omega)
      simp only [h, dif_pos, hvi, if_false]
      by_cases hlt : (tlb ⟨i, h⟩).last_accessed < old
      · simp only [hlt, if_true]
        right
        rcases ih (i + 1) (i : Int) (tlb ⟨i, h⟩).last_accessed (by omega) hrec with
          ⟨hr, hall⟩ | ⟨m, him, hr, hmlt, hmin, hfirst⟩
        · refine ⟨⟨i, h⟩, le_refl i, hr, hlt, fun k hik => ?_, fun k hik hki => ?_⟩
          · by_cases hki : k.val = i
            · have : k = ⟨i, h⟩ := Fin.ext hki
              rw [this]
            · exact hall k (by omega)
          · simp at hki; omega
        · refine ⟨m, by omega, hr, lt_trans hmlt hlt, fun k hik => ?_, fun k hik hkm => ?_⟩
          · by_cases hki : k.val = i
            · have : k = ⟨i, h⟩ := Fin.ext hki
              rw [this]; exact le_of_lt hmlt
            · exact hmin k (by omega)
          · by_cases hki : k.val = i
            · have : k = ⟨i, h⟩ := Fin.ext hki
              rw [this]; exact hmlt
            · exact hfirst k (by omega) hkm
      · simp only [hlt, if_false]
        rcases ih (i + 1) lru old (by omega) hrec with
          ⟨hr, hall⟩ | ⟨m, him, hr, hmlt, hmin, hfirst⟩
        · left
          refine ⟨hr, fun k hik => ?_⟩
          by_cases hki : k.val = i
          · have : k = ⟨i, h⟩ := Fin.ext hki
            rw [this]; exact not_lt.mp hlt
          · exact hall k (by omega)
        · right
          refine ⟨m, by omega, hr, hmlt, fun k hik => ?_, fun k hik hkm => ?_⟩
          · by_cases hki : k.val = i
            · have : k = ⟨i, h⟩ := Fin.ext hki
              rw [this]; exact le_of_lt (lt_of_lt_of_le hmlt (not_lt.mp hlt))
            · exact hmin k (by omega)
          · by_cases hki : k.val = i
            · have : k = ⟨i, h⟩ := Fin.ext hki
              rw [this]; exact lt_of_lt_of_le hmlt (not_lt.mp hlt)
            · exact hfirst k (by omega) hkm
    · simp only [h, dif_neg, not_false_eq_true]
      left
      refine ⟨trivial, fun k hik => ?_⟩
      have := k.isLt
      omega

/-- The loop of `update_tlb` returns `lru_index` as it was or the index of a slot. -/
theorem update_tlb_loop_range (tlb : TLB) :
    ∀ (fuel i : Nat) (lru old : Int),
      update_tlb_loop tlb fuel i lru old = lru ∨
        ∃ m : Fin TLB_ENTRIES, update_tlb_loop tlb fuel i lru old = (m.val : Int) := by
  intro fuel
  induction fuel with
  | zero => intro i lru old; left; rfl
  | succ n ih =>
    intro i lru old
    unfold update_tlb_loop
    by_cases h : i < TLB_ENTRIES
    · simp only [h, dif_pos]
      split
      · right; exact ⟨⟨i, h⟩, rfl⟩
      · split
        · right
          rcases ih (i + 1) (i : Int) (tlb ⟨i, h⟩).last_accessed with hr | ⟨m, hm⟩
          · exact ⟨⟨i, h⟩, hr⟩
          · exact ⟨m, hm⟩
        · exact ih _ _ _
    · simp only [h, dif_neg, not_false_eq_true]
      left; trivial

/-- The slot `update_tlb` writes is always one of the 16 slots. -/
theorem update_tlb_index_range (now_scan : Int) (tlb : TLB) :
    ∃ m : Fin TLB_ENTRIES, update_tlb_index now_scan tlb = (m.val : Int) := by
  unfold update_tlb_index
  rcases update_tlb_loop_range tlb TLB_ENTRIES 0 (-1) now_scan with hr | ⟨m, hm⟩
  · exact ⟨0, by simp [hr]⟩
  · refine ⟨m, ?_⟩
    have hne : ((m.val : Int)) ≠ -1 := by omega
    simp only [hm, hne, if_false]

/-- The function `update_tlb` as one write at the selected slot. -/
theorem update_tlb_eq_write (p : Nat) (f : Int) (ns nw : Int) (tlb : TLB) :
    update_tlb p f ns nw tlb = tlb.write (update_tlb_index ns tlb) (newEntry p f nw) := rfl

/-- With an invalid slot present, `update_tlb` selects the lowest-index invalid slot. -/
theorem update_tlb_index_first_invalid (now_scan : Int) (tlb : TLB) (j : Fin TLB_ENTRIES)
    (hj : (tlb j).valid = 0) (hbefore : ∀ k : Fin TLB_ENTRIES, k < j → (tlb k).valid ≠ 0) :
    update_tlb_index now_scan tlb = (j.val : Int) := by
  unfold update_tlb_index
  have h := update_tlb_loop_first_invalid tlb j hj TLB_ENTRIES 0 (-1) now_scan
    (Nat.zero_le _) (by have := j.isLt; omega) (fun k _ hkj => hbefore k (Fin.lt_def.mpr hkj))
  have hne : ((j.val : Int)) ≠ -1 := by omega
  simp only [h, hne, if_false]

/-- With all slots valid and no timestamp later than `now_scan`, `update_tlb` selects the slot
with the smallest timestamp, the lowest index among equals. -/
theorem update_tlb_index_all_valid (now_scan : Int) (tlb : TLB)
    (hvalid : ∀ k : Fin TLB_ENTRIES, (tlb k).valid ≠ 0)
    (hnow : ∀ k : Fin TLB_ENTRIES, (tlb k).last_accessed ≤ now_scan) :
    ∃ m : Fin TLB_ENTRIES, update_tlb_index now_scan tlb = (m.val : Int) ∧
      (∀ k : Fin TLB_ENTRIES, (tlb m).last_accessed ≤ (tlb k).last_accessed) ∧
      (∀ k : Fin TLB_ENTRIES, k < m → (tlb m).last_accessed < (tlb k).last_accessed) := by
  unfold update_tlb_index
  rcases update_tlb_loop_all_valid tlb TLB_ENTRIES 0 (-1) now_scan (by omega)
      (fun k _ => hvalid k) with ⟨hr, hall⟩ | ⟨m, _, hr, _, hmin, hfirst⟩
  · refine ⟨0, by simp [hr], fun k => ?_, fun k hk => ?_⟩
    · have h0 := hall 0 (Nat.zero_le _)
      have h1 := hnow 0
      have h2 := hall k (Nat.zero_le _)
      omega
    · exact absurd hk (Fin.not_lt_zero k)
  · refine ⟨m, ?_, fun k => hmin k (Nat.zero_le _),
      fun k hk => hfirst k (Nat.zero_le _) (Fin.lt_def.mp hk)⟩
    have hne : ((m.val : Int)) ≠ -1 := by omega
    simp only [hr, hne, if_false]

/-- Overwriting a valid slot with a valid entry keeps the number of valid entries. -/
theorem validCount_update_valid (tlb : TLB) (j : Fin TLB_ENTRIES) (e : TLBEntry)
    (hj : (tlb j).valid ≠ 0) (he : e.valid ≠ 0) :
    validCount (Function.update tlb j e) = validCount tlb := by
  unfold validCount
  congr 1
  apply Finset.filter_congr
  intro i _
  by_cases hij : i = j
  · subst hij; simp [hj, he]
  · rw [Function.update_noteq hij]

/-- The TLB has 16 slots, so at most 16 valid entries. -/
theorem validCount_le (tlb : TLB) : validCount tlb ≤ TLB_ENTRIES := by
  unfold validCount
  calc (Finset.univ.filter fun i => (tlb i).valid ≠ 0).card
      ≤ (Finset.univ : Finset (Fin TLB_ENTRIES)).card := Finset.card_filter_le _ _
    _ = TLB_ENTRIES := by simp

/-- Filling a freshly initialised TLB: after `n ≤ 16` calls of `update_tlb`, slot `i < n` holds
the `i`-th mapping and the slots from `n` on are still as `initialize_tlb` left them. -/
theorem fill_fresh (t0 : TLB) (page : Nat → Nat) (frame : Nat → Int) (clock : Nat → Int) :
    ∀ n, n ≤ TLB_ENTRIES → ∀ i : Fin TLB_ENTRIES,
      fill page frame clock n (initialize_tlb t0) i =
        if i.val < n then newEntry (page i.val) (frame i.val) (clock (2 * i.val + 1))
        else initialize_tlb t0 i := by
  intro n
  induction n with
  | zero => intro _ i; simp [fill]
  | succ n ih =>
    intro hn i
    have ih := ih (by omega)
    have hj : (fill page frame clock n (initialize_tlb t0) ⟨n, by omega⟩).valid = 0 := by
      rw [ih]; simp [initialize_tlb]
    have hbefore : ∀ k : Fin TLB_ENTRIES, k < (⟨n, by omega⟩ : Fin TLB_ENTRIES) →
        (fill page frame clock n (initialize_tlb t0) k).valid ≠ 0 := by
      intro k hk
      have hkn : k.val < n := Fin.lt_def.mp hk
      rw [ih]; simp [hkn, newEntry]
    have hidx := update_tlb_index_first_invalid (clock (2 * n))
      (fill page frame clock n (initialize_tlb t0)) ⟨n, by omega⟩ hj hbefore
    show update_tlb (page n) (frame n) (clock (2 * n)) (clock (2 * n + 1))
      (fill page frame clock n (initialize_tlb t0)) i = _
    rw [update_tlb_eq_write, hidx, TLB.write_eq_update, Function.update_apply]
    by_cases hin : i.val = n
    · have hi : i = ⟨n, by omega⟩ := Fin.ext hin
      have hlt : i.val < n + 1 := by omega
      rw [if_pos hi, if_pos hlt, hin]
    · have hne : i ≠ ⟨n, by omega⟩ := fun h => hin (by rw [h])
      rw [if_neg hne, ih]
      by_cases hlt : i.val < n
      · have hlt1 : i.val < n + 1 := by omega
        rw [if_pos hlt, if_pos hlt1]
      · have hlt1 : ¬ i.val < n + 1 := by omega
        rw [if_neg hlt, if_neg hlt1]

/-- The TLB after 16 calls of `update_tlb` on a freshly initialised TLB, slot by slot. -/
theorem fill_fresh_full (t0 : TLB) (page : Nat → Nat) (frame : Nat → Int) (clock : Nat → Int) :
    fill page frame clock TLB_ENTRIES (initialize_tlb t0) =
      fun i => newEntry (page i.val) (frame i.val) (clock (2 * i.val + 1)) := by
  funext i
  rw [fill_fresh t0 page frame clock TLB_ENTRIES (le_refl _) i]
  simp [i.isLt]

/-! ## Arithmetic of the address decomposition -/

/-- The page number extracted from a logical address is below `NUM_PAGES`. -/
theorem page_number_lt (a : Nat) : (a >>> 8) &&& 0xFF < NUM_PAGES := by
  have h : (a >>> 8) &&& 0xFF = (a >>> 8) % 2 ^ 8 := Nat.and_pow_two_sub_one_eq_mod _ 8
  rw [h]
  exact Nat.mod_lt _ (by norm_num)

/-- The offset extracted from a logical address is below 256. -/
theorem offset_lt (a : Nat) : a &&& 0xFF < 256 := by
  have h : a &&& 0xFF = a % 2 ^ 8 := Nat.and_pow_two_sub_one_eq_mod _ 8
  rw [h]
  exact Nat.mod_lt _ (by norm_num)

/-- Page number and offset of a 16-bit address recompose to the address. -/
theorem page_offset_recompose (a : Nat) (ha : a ≤ 65535) :
    ((a >>> 8) &&& 0xFF) * 256 + (a &&& 0xFF) = a := by
  have h1 : (a >>> 8) &&& 0xFF = (a >>> 8) % 2 ^ 8 := Nat.and_pow_two_sub_one_eq_mod _ 8
  have h2 : a &&& 0xFF = a % 2 ^ 8 := Nat.and_pow_two_sub_one_eq_mod _ 8
  rw [h1, h2, Nat.shiftRight_eq_div_pow]
  norm_num
  omega

/-! ## The translator under the identity page table -/

/-- A freshly initialised TLB has no valid entry, so it is identity-mapped. -/
theorem initialize_tlb_identityMapped (t0 : TLB) : (initialize_tlb t0).identityMapped := by
  intro k hk
  exact absurd rfl hk

/-- The initial state is identity-mapped. -/
theorem State.init_identityMapped (s0 : State) : s0.init.identityMapped :=
  ⟨fun _ => rfl, initialize_tlb_identityMapped s0.tlb⟩

/-- The function `consult_tlb` keeps the TLB identity-mapped. -/
theorem consult_tlb_identityMapped (p : Nat) (ne nh : Int) (tlb : TLB)
    (h : tlb.identityMapped) : (consult_tlb p ne nh tlb).2.identityMapped := by
  rcases consult_tlb_spec p ne nh tlb with ⟨_, hr⟩ | ⟨j, _, _, hr⟩
  · rw [hr]; exact h
  · rw [hr]
    intro k hk
    dsimp only at hk ⊢
    by_cases hkj : k = j
    · rw [hkj, Function.update_same] at hk
      rw [hkj, Function.update_same]
      exact h j hk
    · rw [Function.update_noteq hkj] at hk
      rw [Function.update_noteq hkj]
      exact h k hk

/-- Inserting the mapping `p -> p` keeps the TLB identity-mapped. -/
theorem update_tlb_identityMapped (p : Nat) (ns nw : Int) (tlb : TLB) (hp : p < NUM_PAGES)
    (h : tlb.identityMapped) : (update_tlb p (p : Int) ns nw tlb).identityMapped := by
  obtain ⟨m, hm⟩ := update_tlb_index_range ns tlb
  rw [update_tlb_eq_write, hm, TLB.write_eq_update]
  intro k hk
  by_cases hkm : k = m
  · rw [hkm, Function.update_same]
    exact ⟨hp, rfl⟩
  · rw [Function.update_noteq hkm] at hk
    rw [Function.update_noteq hkm]
    exact h k hk

/-- The frame `consult_tlb` returns when every valid entry is identity-mapped: the page itself
on a hit. -/
theorem consult_tlb_frame_identityMapped (p : Nat) (ne nh : Int) (tlb : TLB)
    (h : tlb.identityMapped) :
    (consult_tlb p ne nh tlb).1 = FRAME_NUMBER_NOT_FOUND ∨ (consult_tlb p ne nh tlb).1 = (p : Int) := by
  rcases consult_tlb_spec p ne nh tlb with ⟨_, hr⟩ | ⟨j, hj, _, hr⟩
  · left; rw [hr]
  · right
    rw [hr]
    show (tlb j).frame_number = (p : Int)
    rw [(h j hj.1).2, hj.2]

/-- One call of the translator in a state with the identity page table: no page fault, the frame
is the page number, and the TLB receives the mapping page -> page. -/
theorem translate_body_identityMapped (a : Nat) (mem : Nat → Option Nat) (clk : Clock)
    (s : State) (hs : s.identityMapped) :
    translate_body a mem clk s =
      some ({ tlb := update_tlb ((a >>> 8) &&& 0xFF) (((a >>> 8) &&& 0xFF : Nat) : Int)
                clk.update_scan clk.update_write
                (consult_tlb ((a >>> 8) &&& 0xFF) clk.consult_entry clk.consult_hit s.tlb).2,
              page_table := s.page_table },
            { page_number := (a >>> 8) &&& 0xFF, offset := a &&& 0xFF,
              frame_number := (((a >>> 8) &&& 0xFF : Nat) : Int),
              page_fault := false, fault_value := none,
              physical_address :=
                (((((a >>> 8) &&& 0xFF : Nat) : Int) * PAGE_SIZE + ((a &&& 0xFF : Nat) : Int))
                  % 2 ^ 32).toNat,
              value := mem
                (((((a >>> 8) &&& 0xFF : Nat) : Int) * PAGE_SIZE + ((a &&& 0xFF : Nat) : Int))
                  % 2 ^ 32).toNat }) := by
  have hp : (a >>> 8) &&& 0xFF < NUM_PAGES := page_number_lt a
  have hpt : get_frame_number_from_page_table s.page_table ((a >>> 8) &&& 0xFF) =
      some (((a >>> 8) &&& 0xFF : Nat) : Int) := by
    unfold get_frame_number_from_page_table
    rw [dif_pos hp, hs.1]
  have hne : ((((a >>> 8) &&& 0xFF : Nat) : Int)) ≠ FRAME_NUMBER_NOT_FOUND := by
    show _ ≠ (-1 : Int)
    omega
  unfold translate_body
  simp only [Option.bind_eq_bind, Option.pure_def, bind, pure]
  rcases consult_tlb_frame_identityMapped ((a >>> 8) &&& 0xFF) clk.consult_entry clk.consult_hit
      s.tlb hs.2 with h | h
  · rw [if_pos h, hpt]
    simp only [Option.some_bind, if_neg hne]
  · have hne2 : (consult_tlb ((a >>> 8) &&& 0xFF) clk.consult_entry clk.consult_hit s.tlb).1 ≠
        FRAME_NUMBER_NOT_FOUND := by rw [h]; exact hne
    rw [if_neg hne2, h]
    simp only [Option.some_bind, if_neg hne]

/-- One call of `translate_and_access_memory` from an identity-mapped state is defined and
ends in an identity-mapped state. -/
theorem translate_and_access_memory_identityMapped (file_opened : Bool) (a : Nat)
    (mem : Nat → Option Nat) (clk : Clock) (s : State) (hs : s.identityMapped) :
    ∃ r, translate_and_access_memory file_opened a mem clk s = some r ∧ r.1.identityMapped := by
  unfold translate_and_access_memory
  cases file_opened with
  | false => exact ⟨(s, none), rfl, hs⟩
  | true =>
    rw [if_pos rfl, translate_body_identityMapped a mem clk s hs]
    refine ⟨_, rfl, hs.1, ?_⟩
    exact update_tlb_identityMapped _ _ _ _ (page_number_lt a)
      (consult_tlb_identityMapped _ _ _ _ hs.2)

/-- Every run of the program from an identity-mapped state is defined (no page-table index is
out of range) and ends in an identity-mapped state. -/
theorem run_identityMapped (mem : Nat → Option Nat) :
    ∀ (calls : List Call) (s : State), s.identityMapped →
      ∃ s', run mem calls s = some s' ∧ s'.identityMapped := by
  intro calls
  induction calls with
  | nil => intro s hs; exact ⟨s, rfl, hs⟩
  | cons c cs ih =>
    intro s hs
    obtain ⟨r, hr, hr2⟩ :=
      translate_and_access_memory_identityMapped c.file_opened c.logical_address mem c.clk s hs
    obtain ⟨s2, hs2, hs3⟩ := ih r.1 hr2
    refine ⟨s2, ?_, hs3⟩
    show (translate_and_access_memory c.file_opened c.logical_address mem c.clk s).bind
      (fun r => run mem cs r.1) = some s2
    rw [hr]
    exact hs2

/-! ## The translator on a TLB miss -/

/-- A TLB miss on a page the table maps to `FRAME_NUMBER_NOT_FOUND`: the page-fault branch maps
the page to the frame of the same number in the page table and calls `update_tlb` twice. -/
theorem translate_body_miss_unmapped (a : Nat) (mem : Nat → Option Nat) (clk : Clock) (s : State)
    (hmiss : ∀ k, ¬ (s.tlb k).holds ((a >>> 8) &&& 0xFF))
    (hpt : get_frame_number_from_page_table s.page_table ((a >>> 8) &&& 0xFF) =
      some FRAME_NUMBER_NOT_FOUND) :
    translate_body a mem clk s =
      some ({ tlb := update_tlb ((a >>> 8) &&& 0xFF) (((a >>> 8) &&& 0xFF : Nat) : Int)
                clk.update_scan clk.update_write
                (update_tlb ((a >>> 8) &&& 0xFF) (((a >>> 8) &&& 0xFF : Nat) : Int)
                  clk.fault_scan clk.fault_write s.tlb),
              page_table := Function.update s.page_table ⟨(a >>> 8) &&& 0xFF, page_number_lt a⟩
                (((a >>> 8) &&& 0xFF : Nat) : Int) },
            { page_number := (a >>> 8) &&& 0xFF, offset := a &&& 0xFF,
              frame_number := (((a >>> 8) &&& 0xFF : Nat) : Int),
              page_fault := true, fault_value := mem a,
              physical_address :=
                (((((a >>> 8) &&& 0xFF : Nat) : Int) * PAGE_SIZE + ((a &&& 0xFF : Nat) : Int))
                  % 2 ^ 32).toNat,
              value := mem
                (((((a >>> 8) &&& 0xFF : Nat) : Int) * PAGE_SIZE + ((a &&& 0xFF : Nat) : Int))
                  % 2 ^ 32).toNat }) := by
  have hc : consult_tlb ((a >>> 8) &&& 0xFF) clk.consult_entry clk.consult_hit s.tlb =
      (FRAME_NUMBER_NOT_FOUND, s.tlb) :=
    consult_tlb_loop_miss _ _ _ TLB_ENTRIES 0 (-1) _ (fun k _ => hmiss k)
  have hup : update_page_table s.page_table ((a >>> 8) &&& 0xFF)
      (((a >>> 8) &&& 0xFF : Nat) : Int) =
      some (Function.update s.page_table ⟨(a >>> 8) &&& 0xFF, page_number_lt a⟩
        (((a >>> 8) &&& 0xFF : Nat) : Int)) := by
    unfold update_page_table
    rw [dif_pos (page_number_lt a)]
  unfold translate_body
  simp only [Option.bind_eq_bind, Option.pure_def, bind, pure]
  rw [hc]
  dsimp only
  rw [if_pos rfl, hpt]
  simp only [Option.some_bind, if_pos, hup, Option.map_some']

/-- The physical address of page `p` and offset `o`, both below 256, needs no reduction modulo
`2 ^ 32`. -/
theorem physical_address_small (p o : Nat) (hp : p < 256) (ho : o < 256) :
    (((p : Int) * PAGE_SIZE + (o : Int)) % 2 ^ 32).toNat = p * 256 + o := by
  show (((p : Int) * 256 + (o : Int)) % 2 ^ 32).toNat = p * 256 + o
  omega

/-- The page number and the offset of every call of the translator are those of
`extract_page_number_and_offset`. -/
theorem translate_body_decomposition (a : Nat) (mem : Nat → Option Nat) (clk : Clock)
    (s s2 : State) (r : Access) (h : translate_body a mem clk s = some (s2, r)) :
    (r.page_number, r.offset) = extract_page_number_and_offset a := by
  unfold translate_body at h
  simp only [Option.bind_eq_bind, Option.pure_def, bind, pure] at h
  unfold extract_page_number_and_offset
  split at h
  · cases hg : get_frame_number_from_page_table s.page_table ((a >>> 8) &&& 0xFF) with
    | none => rw [hg] at h; simp at h
    | some f =>
      rw [hg] at h
      simp only [Option.some_bind] at h
      split at h
      · cases hu : update_page_table s.page_table ((a >>> 8) &&& 0xFF)
            (((a >>> 8) &&& 0xFF : Nat) : Int) with
        | none => rw [hu] at h; simp at h
        | some pt =>
          rw [hu] at h
          simp only [Option.map_some', Option.some_bind, Option.some.injEq, Prod.mk.injEq] at h
          rw [← h.2]
      · simp only [Option.some_bind, Option.some.injEq, Prod.mk.injEq] at h
        rw [← h.2]
  · simp only [Option.some_bind] at h
    split at h
    · cases hu : update_page_table s.page_table ((a >>> 8) &&& 0xFF)
          (((a >>> 8) &&& 0xFF : Nat) : Int) with
      | none => rw [hu] at h; simp at h
      | some pt =>
        rw [hu] at h
        simp only [Option.map_some', Option.some_bind, Option.some.injEq, Prod.mk.injEq] at h
        rw [← h.2]
    · simp only [Option.some_bind, Option.some.injEq, Prod.mk.injEq] at h
      rw [← h.2]

/-- One call of `translate_and_access_memory` (the output file being opened) in a state with
the identity page table, in closed form. -/
theorem translate_and_access_memory_eq_identityMapped (a : Nat) (mem : Nat → Option Nat)
    (clk : Clock) (s : State) (hs : s.identityMapped) :
    translate_and_access_memory true a mem clk s =
      some ({ tlb := update_tlb ((a >>> 8) &&& 0xFF) (((a >>> 8) &&& 0xFF : Nat) : Int)
                clk.update_scan clk.update_write
                (consult_tlb ((a >>> 8) &&& 0xFF) clk.consult_entry clk.consult_hit s.tlb).2,
              page_table := s.page_table },
            some
              { page_number := (a >>> 8) &&& 0xFF, offset := a &&& 0xFF,
                frame_number := (((a >>> 8) &&& 0xFF : Nat) : Int),
                page_fault := false, fault_value := none,
                physical_address :=
                  (((((a >>> 8) &&& 0xFF : Nat) : Int) * PAGE_SIZE + ((a &&& 0xFF : Nat) : Int))
                    % 2 ^ 32).toNat,
                value := mem
                  (((((a >>> 8) &&& 0xFF : Nat) : Int) * PAGE_SIZE + ((a &&& 0xFF : Nat) : Int))
                    % 2 ^ 32).toNat }) := by
  unfold translate_and_access_memory
  rw [if_pos rfl, translate_body_identityMapped a mem clk s hs]
  rfl

/-! ## The claims -/

/-- C1 (as stated) fails: translating address 0 twice from the initial state, with a clock that
advances at every reading, leaves slots 0 and 1 both valid and both holding page 0. -/
theorem run_duplicates_page :
    clockNonDecreasing sameAddressTwice ∧
    (run zeroMem sameAddressTwice State.boot.init).map
        (fun s => ((s.tlb 0).valid, (s.tlb 0).page_number, (s.tlb 1).valid,
          (s.tlb 1).page_number)) = some (1, 0, 1, 0) ∧
    (run zeroMem sameAddressTwice State.boot.init).map
        (fun s => decide (noDuplicatePage s.tlb)) = some false := by
  decide

/-- C1 (amended): every finite sequence of `translate_and_access_memory` calls from
`initialize_page_table` + `initialize_tlb` (any logical addresses, any clock readings) ends in
a state whose TLB holds at most 16 valid entries, and any two valid entries with the same
`page_number` hold the same `frame_number`. -/
theorem run_tlb_capacity_and_agreement (s0 : State) (mem : Nat → Option Nat)
    (calls : List Call) :
    ∃ s, run mem calls s0.init = some s ∧ validCount s.tlb ≤ 16 ∧
      ∀ i j : Fin TLB_ENTRIES, (s.tlb i).valid ≠ 0 → (s.tlb j).valid ≠ 0 →
        (s.tlb i).page_number = (s.tlb j).page_number →
        (s.tlb i).frame_number = (s.tlb j).frame_number := by
  obtain ⟨s, hs, hinv⟩ := run_identityMapped mem calls s0.init s0.init_identityMapped
  refine ⟨s, hs, validCount_le s.tlb, fun i j hi hj hp => ?_⟩
  rw [(hinv.2 i hi).2, (hinv.2 j hj).2, hp]

/-- C1 (amended) on the run that translates address 0 twice. -/
theorem run_tlb_capacity_and_agreement_witness :
    ∃ s, run zeroMem sameAddressTwice State.boot.init = some s ∧ validCount s.tlb ≤ 16 ∧
      ∀ i j : Fin TLB_ENTRIES, (s.tlb i).valid ≠ 0 → (s.tlb j).valid ≠ 0 →
        (s.tlb i).page_number = (s.tlb j).page_number →
        (s.tlb i).frame_number = (s.tlb j).frame_number :=
  run_tlb_capacity_and_agreement State.boot zeroMem sameAddressTwice

/-- C2 (as stated) fails: slot 0 of `staleTLB` is a valid entry for page 5, yet
`update_tlb(5, 2)` leaves that slot as it was (frame 1), writes slot 1 instead, and the number
of valid entries grows from 1 to 2. -/
theorem update_tlb_not_in_place :
    (staleTLB 0).holds 5 ∧
    update_tlb 5 2 100 100 staleTLB 0 = staleTLB 0 ∧
    (update_tlb 5 2 100 100 staleTLB 0).frame_number = 1 ∧
    update_tlb 5 2 100 100 staleTLB 1 ≠ staleTLB 1 ∧
    validCount staleTLB = 1 ∧ validCount (update_tlb 5 2 100 100 staleTLB) = 2 := by
  decide

/-- C2 (amended): when all 16 slots are valid, no timestamp is later than the clock reading,
and the entry holding page `p` is the least recently used one (smallest `last_accessed`, lowest
index among equals), `update_tlb(p, f)` rewrites that entry in place: every other slot is
unchanged and the number of valid entries stays the same. -/
theorem update_tlb_in_place_when_lru (tlb : TLB) (p : Nat) (f now_scan now_write : Int)
    (j : Fin TLB_ENTRIES) (hvalid : ∀ k, (tlb k).valid ≠ 0)
    (hnow : ∀ k, (tlb k).last_accessed ≤ now_scan) (hj : (tlb j).page_number = p)
    (hlru : ∀ k, (tlb j).last_accessed ≤ (tlb k).last_accessed)
    (hfirst : ∀ k, k < j → (tlb j).last_accessed < (tlb k).last_accessed) :
    (tlb j).holds p ∧
    update_tlb p f now_scan now_write tlb =
        Function.update tlb j
          { page_number := p, frame_number := f, last_accessed := now_write, valid := 1 } ∧
      validCount (update_tlb p f now_scan now_write tlb) = validCount tlb := by
  obtain ⟨m, hidx, hmin, hmfirst⟩ := update_tlb_index_all_valid now_scan tlb hvalid hnow
  have hm : m = j := by
    rcases lt_trichotomy m j with hlt | heq | hgt
    · exact absurd (hfirst m hlt) (not_lt.mpr (hmin j))
    · exact heq
    · exact absurd (hmfirst j hgt) (not_lt.mpr (hlru m))
  have heq : update_tlb p f now_scan now_write tlb =
      Function.update tlb j (newEntry p f now_write) := by
    rw [update_tlb_eq_write, hidx, TLB.write_eq_update, hm]
  refine ⟨⟨hvalid j, hj⟩, heq, ?_⟩
  rw [heq]
  exact validCount_update_valid tlb j _ (hvalid j) (by simp [newEntry])

/-- C2 (amended), on `fullTLB`: page 0 sits in slot 0, which has the smallest timestamp. -/
theorem update_tlb_in_place_when_lru_witness :
    (∀ k, (fullTLB k).valid ≠ 0) ∧ (∀ k, (fullTLB k).last_accessed ≤ 100) ∧
    (fullTLB 0).page_number = 0 ∧
    (∀ k, (fullTLB 0).last_accessed ≤ (fullTLB k).last_accessed) ∧
    (∀ k, k < (0 : Fin TLB_ENTRIES) → (fullTLB 0).last_accessed < (fullTLB k).last_accessed) ∧
    ((fullTLB 0).holds 0 ∧
    update_tlb 0 9 100 101 fullTLB =
        Function.update fullTLB 0
          { page_number := 0, frame_number := 9, last_accessed := 101, valid := 1 } ∧
      validCount (update_tlb 0 9 100 101 fullTLB) = validCount fullTLB) :=
  ⟨by decide, by decide, by decide, by decide, by decide,
    update_tlb_in_place_when_lru fullTLB 0 9 100 101 0 (by decide) (by decide) (by decide)
      (by decide) (by decide)⟩

/-- C3 (as stated) fails: after `update_tlb(5, 2)` on `staleTLB`, whose slot 0 already maps
page 5 to frame 1, an immediate `consult_tlb(5)` returns the old frame 1, not 2. -/
theorem consult_after_update_stale :
    (consult_tlb 5 100 100 (update_tlb 5 2 100 100 staleTLB)).1 = 1 ∧
    (consult_tlb 5 100 100 (update_tlb 5 2 100 100 staleTLB)).1 ≠ 2 := by
  decide

/-- C3 (amended): when no valid entry for page `p` lies in a slot below the one `update_tlb`
selects (in particular when no valid entry holds `p` at all), a `consult_tlb(p)` performed
immediately after `update_tlb(p, f)` returns `f`. -/
theorem consult_after_update (tlb : TLB) (p : Nat) (f now_scan now_write now_entry now_hit : Int)
    (hbelow : ∀ k : Fin TLB_ENTRIES,
      (k.val : Int) < update_tlb_index now_scan tlb → ¬ (tlb k).holds p) :
    (consult_tlb p now_entry now_hit (update_tlb p f now_scan now_write tlb)).1 = f := by
  obtain ⟨m, hm⟩ := update_tlb_index_range now_scan tlb
  have heq : update_tlb p f now_scan now_write tlb =
      Function.update tlb m (newEntry p f now_write) := by
    rw [update_tlb_eq_write, hm, TLB.write_eq_update]
  rw [heq]
  have hhit : (Function.update tlb m (newEntry p f now_write) m).holds p := by
    simp [TLBEntry.holds, newEntry]
  have hloop := consult_tlb_loop_hit p now_hit (Function.update tlb m (newEntry p f now_write))
    m hhit TLB_ENTRIES 0 (-1) now_entry (Nat.zero_le _) (by have := m.isLt; omega)
    (fun k _ hkm => by
      have hne : k ≠ m := fun h => by rw [h] at hkm; exact lt_irrefl _ hkm
      rw [Function.update_noteq hne]
      exact hbelow k (by rw [hm]; exact_mod_cast hkm))
  unfold consult_tlb
  rw [hloop]
  simp [newEntry]

/-- C3 (amended), on the freshly initialised TLB. -/
theorem consult_after_update_witness :
    (∀ k : Fin TLB_ENTRIES, (k.val : Int) < update_tlb_index 100 freshTLB →
      ¬ (freshTLB k).holds 5) ∧
    (consult_tlb 5 102 103 (update_tlb 5 2 100 101 freshTLB)).1 = 2 :=
  ⟨by decide, consult_after_update freshTLB 5 2 100 101 102 103 (by decide)⟩

/-- C4: starting from `initialize_tlb`, after `update_tlb` for 16 pairwise distinct pages
`page 0 .. page 15` in that order (slot `i` then holds `page i`, and slot 0 is the only slot
holding `page 0`), `update_tlb` for a page `page 16` not among them overwrites exactly slot 0 and
leaves the entries for `page 1 .. page 15` as they were, for every non-decreasing sequence
`clock` of clock readings. -/
theorem lru_evicts_first_inserted (t0 : TLB) (page : Nat → Nat) (frame clock : Nat → Int)
    (hdistinct : ∀ i j, i ≤ 16 → j ≤ 16 → page i = page j → i = j)
    (hclock : ∀ a b, a ≤ b → clock a ≤ clock b) :
    (∀ i : Fin TLB_ENTRIES, fill page frame clock 16 (initialize_tlb t0) i =
        { page_number := page i.val, frame_number := frame i.val,
          last_accessed := clock (2 * i.val + 1), valid := 1 }) ∧
    (∀ i : Fin TLB_ENTRIES,
      (fill page frame clock 16 (initialize_tlb t0) i).holds (page 0) ↔ i = 0) ∧
    update_tlb (page 16) (frame 16) (clock 32) (clock 33)
        (fill page frame clock 16 (initialize_tlb t0)) =
      Function.update (fill page frame clock 16 (initialize_tlb t0)) 0
        { page_number := page 16, frame_number := frame 16,
          last_accessed := clock 33, valid := 1 } := by
  have hfull := fill_fresh_full t0 page frame clock
  have hfull16 : fill page frame clock 16 (initialize_tlb t0) =
      fun i => newEntry (page i.val) (frame i.val) (clock (2 * i.val + 1)) := hfull
  rw [hfull16]
  refine ⟨fun i => rfl, fun i => ?_, ?_⟩
  · constructor
    · intro h
      have hp : page i.val = page 0 := h.2
      have := hdistinct i.val 0 (by have : i.val < 16 := i.isLt; omega) (by omega) hp
      exact Fin.ext this
    · intro h
      rw [h]
      exact ⟨by simp [newEntry], rfl⟩
  · obtain ⟨m, hidx, _, hfirst⟩ := update_tlb_index_all_valid (clock 32)
      (fun i : Fin TLB_ENTRIES => newEntry (page i.val) (frame i.val) (clock (2 * i.val + 1)))
      (fun k => by simp [newEntry])
      (fun k => hclock _ _ (by have : k.val < 16 := k.isLt; show 2 * k.val + 1 ≤ 32; omega))
    have hm : m = 0 := by
      by_contra hne
      have hpos : (0 : Fin TLB_ENTRIES) < m := Fin.pos_iff_ne_zero.mpr hne
      have h1 := hfirst 0 hpos
      have h2 : clock (2 * (0 : Fin TLB_ENTRIES).val + 1) ≤ clock (2 * m.val + 1) :=
        hclock _ _ (by simp)
      exact absurd h1 (not_lt.mpr h2)
    rw [update_tlb_eq_write, hidx, TLB.write_eq_update, hm]
    rfl

/-- C4 for pages 0..16 and a clock that advances at every reading. -/
theorem lru_evicts_first_inserted_witness :
    (∀ i j, i ≤ 16 → j ≤ 16 → idPage i = idPage j → i = j) ∧
    (∀ a b, a ≤ b → tickClock a ≤ tickClock b) ∧
    ((∀ i : Fin TLB_ENTRIES, fill idPage idFrame tickClock 16 (initialize_tlb State.boot.tlb) i =
        { page_number := idPage i.val, frame_number := idFrame i.val,
          last_accessed := tickClock (2 * i.val + 1), valid := 1 }) ∧
    (∀ i : Fin TLB_ENTRIES,
      (fill idPage idFrame tickClock 16 (initialize_tlb State.boot.tlb) i).holds (idPage 0)
        ↔ i = 0) ∧
    update_tlb (idPage 16) (idFrame 16) (tickClock 32) (tickClock 33)
        (fill idPage idFrame tickClock 16 (initialize_tlb State.boot.tlb)) =
      Function.update (fill idPage idFrame tickClock 16 (initialize_tlb State.boot.tlb)) 0
        { page_number := idPage 16, frame_number := idFrame 16,
          last_accessed := tickClock 33, valid := 1 }) :=
  ⟨fun _ _ _ _ h => h, fun a b h => by unfold tickClock; omega,
    lru_evicts_first_inserted State.boot.tlb idPage idFrame tickClock
      (fun _ _ _ _ h => h) (fun a b h => by unfold tickClock; omega)⟩

/-- C5 (as stated) fails: with a clock that returns 100 at every call (all accesses within one
second), after `update_tlb` for pages 0..15 and `consult_tlb(0)`, `update_tlb(16, 16)` overwrites
slot 0, the slot of the page just consulted: page 0 is gone and page 1 is still in slot 1. -/
theorem lru_refreshed_page_evicted_on_tie :
    (∀ a b, a ≤ b → tieClock a ≤ tieClock b) ∧
    (consult_tlb (idPage 0) (tieClock 32) (tieClock 33)
      (fill idPage idFrame tieClock 16 (initialize_tlb State.boot.tlb))).1 = 0 ∧
    (update_tlb (idPage 16) (idFrame 16) (tieClock 34) (tieClock 35)
      (consult_tlb (idPage 0) (tieClock 32) (tieClock 33)
        (fill idPage idFrame tieClock 16 (initialize_tlb State.boot.tlb))).2 0).page_number = 16 ∧
    (update_tlb (idPage 16) (idFrame 16) (tieClock 34) (tieClock 35)
      (consult_tlb (idPage 0) (tieClock 32) (tieClock 33)
        (fill idPage idFrame tieClock 16 (initialize_tlb State.boot.tlb))).2 1).holds 1 ∧
    ¬ ∃ i, (update_tlb (idPage 16) (idFrame 16) (tieClock 34) (tieClock 35)
      (consult_tlb (idPage 0) (tieClock 32) (tieClock 33)
        (fill idPage idFrame tieClock 16 (initialize_tlb State.boot.tlb))).2 i).holds 0 := by
  refine ⟨fun _ _ _ => le_refl _, ?_⟩
  rw [fill_fresh_full]
  decide

/-- C5 (amended): starting from `initialize_tlb`, after `update_tlb` for 16 pairwise distinct
pages `page 0 .. page 15` in order and then `consult_tlb(page 0)` (a hit in slot 0, which only
refreshes that slot's timestamp), `update_tlb` for a new page `page 16` overwrites slot 1, the
slot holding `page 1`, and keeps the entry for `page 0`, for every non-decreasing sequence
`clock` of clock readings in which the reading stored with `page 1` is strictly earlier than
the reading stored by the consult. -/
theorem lru_spares_refreshed_page (t0 : TLB) (page : Nat → Nat) (frame clock : Nat → Int)
    (hdistinct : ∀ i j, i ≤ 16 → j ≤ 16 → page i = page j → i = j)
    (hclock : ∀ a b, a ≤ b → clock a ≤ clock b) (hstrict : clock 3 < clock 33) :
    consult_tlb (page 0) (clock 32) (clock 33) (fill page frame clock 16 (initialize_tlb t0)) =
      (frame 0, Function.update (fill page frame clock 16 (initialize_tlb t0)) 0
        { page_number := page 0, frame_number := frame 0,
          last_accessed := clock 33, valid := 1 }) ∧
    (∀ i : Fin TLB_ENTRIES,
      ((consult_tlb (page 0) (clock 32) (clock 33)
        (fill page frame clock 16 (initialize_tlb t0))).2 i).holds (page 1) ↔ i = 1) ∧
    update_tlb (page 16) (frame 16) (clock 34) (clock 35)
        (consult_tlb (page 0) (clock 32) (clock 33)
          (fill page frame clock 16 (initialize_tlb t0))).2 =
      Function.update
        (consult_tlb (page 0) (clock 32) (clock 33)
          (fill page frame clock 16 (initialize_tlb t0))).2 1
        { page_number := page 16, frame_number := frame 16,
          last_accessed := clock 35, valid := 1 } ∧
    (update_tlb (page 16) (frame 16) (clock 34) (clock 35)
        (consult_tlb (page 0) (clock 32) (clock 33)
          (fill page frame clock 16 (initialize_tlb t0))).2 0).holds (page 0) := by
  have hfull16 : fill page frame clock 16 (initialize_tlb t0) =
      fun i => newEntry (page i.val) (frame i.val) (clock (2 * i.val + 1)) :=
    fill_fresh_full t0 page frame clock
  rw [hfull16]
  have hconsult : consult_tlb (page 0) (clock 32) (clock 33)
      (fun i : Fin TLB_ENTRIES => newEntry (page i.val) (frame i.val) (clock (2 * i.val + 1))) =
      (frame 0, Function.update
        (fun i : Fin TLB_ENTRIES => newEntry (page i.val) (frame i.val) (clock (2 * i.val + 1))) 0
        (newEntry (page 0) (frame 0) (clock 33))) :=
    consult_tlb_loop_hit (page 0) (clock 33) _ 0 ⟨by simp [newEntry], rfl⟩ TLB_ENTRIES 0 (-1)
      (clock 32) (le_refl _) (by simp) (fun k _ hk => absurd hk (Nat.not_lt_zero _))
  rw [hconsult]
  dsimp only
  have hslot : ∀ k : Fin TLB_ENTRIES, k ≠ 0 →
      Function.update
        (fun i : Fin TLB_ENTRIES => newEntry (page i.val) (frame i.val) (clock (2 * i.val + 1))) 0
        (newEntry (page 0) (frame 0) (clock 33)) k =
      newEntry (page k.val) (frame k.val) (clock (2 * k.val + 1)) :=
    fun k hk => Function.update_noteq hk _ _
  have hslot0 : Function.update
        (fun i : Fin TLB_ENTRIES => newEntry (page i.val) (frame i.val) (clock (2 * i.val + 1))) 0
        (newEntry (page 0) (frame 0) (clock 33)) 0 = newEntry (page 0) (frame 0) (clock 33) :=
    Function.update_same _ _ _
  have hvalid : ∀ k : Fin TLB_ENTRIES, (Function.update
        (fun i : Fin TLB_ENTRIES => newEntry (page i.val) (frame i.val) (clock (2 * i.val + 1))) 0
        (newEntry (page 0) (frame 0) (clock 33)) k).valid ≠ 0 := by
    intro k
    by_cases hk : k = 0
    · rw [hk, hslot0]; simp [newEntry]
    · rw [hslot k hk]; simp [newEntry]
  have hnow : ∀ k : Fin TLB_ENTRIES, (Function.update
        (fun i : Fin TLB_ENTRIES => newEntry (page i.val) (frame i.val) (clock (2 * i.val + 1))) 0
        (newEntry (page 0) (frame 0) (clock 33)) k).last_accessed ≤ clock 34 := by
    intro k
    by_cases hk : k = 0
    · rw [hk, hslot0]; exact hclock _ _ (by omega)
    · rw [hslot k hk]
      exact hclock _ _ (by have : k.val < 16 := k.isLt; omega)
  obtain ⟨m, hidx, hmin, hfirst⟩ := update_tlb_index_all_valid (clock 34) _ hvalid hnow
  have h10 : (1 : Fin TLB_ENTRIES) ≠ 0 := by decide
  have hm : m = 1 := by
    by_cases hm0 : m = 0
    · have h := hmin 1
      rw [hm0, hslot0, hslot 1 h10] at h
      exact absurd hstrict (not_lt.mpr h)
    · by_contra hm1
      have hlt : (1 : Fin TLB_ENTRIES) < m := by
        have h0 : m.val ≠ 0 := fun h => hm0 (Fin.ext h)
        have h1 : m.val ≠ 1 := fun h => hm1 (Fin.ext h)
        exact Fin.lt_def.mpr (by show 1 < m.val; omega)
      have h := hfirst 1 hlt
      rw [hslot m hm0, hslot 1 h10] at h
      have h2 : clock (2 * (1 : Fin TLB_ENTRIES).val + 1) ≤ clock (2 * m.val + 1) :=
        hclock _ _ (by have := Fin.lt_def.mp hlt; omega)
      exact absurd h (not_lt.mpr h2)
  refine ⟨rfl, fun i => ?_, ?_, ?_⟩
  · constructor
    · intro h
      by_cases hi : i = 0
      · rw [hi, hslot0] at h
        have := hdistinct 0 1 (by omega) (by omega) h.2
        omega
      · rw [hslot i hi] at h
        have := hdistinct i.val 1 (by have : i.val < 16 := i.isLt; omega) (by omega) h.2
        exact Fin.ext this
    · intro h
      rw [h, hslot 1 h10]
      exact ⟨by simp [newEntry], rfl⟩
  · rw [update_tlb_eq_write, hidx, TLB.write_eq_update, hm]
    rfl
  · rw [update_tlb_eq_write, hidx, TLB.write_eq_update, hm,
      Function.update_noteq (Ne.symm h10), hslot0]
    exact ⟨by simp [newEntry], rfl⟩

/-- C5 (amended) for pages 0..16 and a clock that advances at every reading. -/
theorem lru_spares_refreshed_page_witness :
    (∀ i j, i ≤ 16 → j ≤ 16 → idPage i = idPage j → i = j) ∧
    (∀ a b, a ≤ b → tickClock a ≤ tickClock b) ∧ tickClock 3 < tickClock 33 ∧
    update_tlb (idPage 16) (idFrame 16) (tickClock 34) (tickClock 35)
        (consult_tlb (idPage 0) (tickClock 32) (tickClock 33)
          (fill idPage idFrame tickClock 16 (initialize_tlb State.boot.tlb))).2 =
      Function.update
        (consult_tlb (idPage 0) (tickClock 32) (tickClock 33)
          (fill idPage idFrame tickClock 16 (initialize_tlb State.boot.tlb))).2 1
        { page_number := idPage 16, frame_number := idFrame 16,
          last_accessed := tickClock 35, valid := 1 } :=
  ⟨fun _ _ _ _ h => h, fun a b h => by unfold tickClock; omega, by decide,
    (lru_spares_refreshed_page State.boot.tlb idPage idFrame tickClock
      (fun _ _ _ _ h => h) (fun a b h => by unfold tickClock; omega) (by decide)).2.2.1⟩

/-- C6: when the TLB has at least one invalid slot and no valid entry holds page `p`,
`update_tlb(p, f)` writes `(p, f, now, valid)` into the lowest-index invalid slot and leaves
every other slot unchanged; in particular every valid entry is kept. -/
theorem update_tlb_fills_first_invalid (tlb : TLB) (p : Nat) (f now_scan now_write : Int)
    (hinv : ∃ i, (tlb i).valid = 0) (_hnew : ∀ k, ¬ (tlb k).holds p) :
    ∃ j, (tlb j).valid = 0 ∧ (∀ k, (tlb k).valid = 0 → j ≤ k) ∧
      update_tlb p f now_scan now_write tlb = Function.update tlb j (newEntry p f now_write) ∧
      ∀ k, (tlb k).valid ≠ 0 → update_tlb p f now_scan now_write tlb k = tlb k := by
  obtain ⟨j, hj, hmin⟩ := exists_lowest_slot (fun i => (tlb i).valid = 0) hinv
  have hidx := update_tlb_index_first_invalid now_scan tlb j hj
    (fun k hk hv => absurd (hmin k hv) (not_le.mpr hk))
  have heq : update_tlb p f now_scan now_write tlb =
      Function.update tlb j (newEntry p f now_write) := by
    rw [update_tlb_eq_write, hidx, TLB.write_eq_update]
  refine ⟨j, hj, hmin, heq, fun k hk => ?_⟩
  rw [heq]
  have hkj : k ≠ j := fun hkj => hk (by rw [hkj]; exact hj)
  exact Function.update_noteq hkj _ _

/-- C6 on `staleTLB`, whose slots 1..15 are invalid, for the new page 7. -/
theorem update_tlb_fills_first_invalid_witness :
    (∃ i, (staleTLB i).valid = 0) ∧ (∀ k, ¬ (staleTLB k).holds 7) ∧
    ∃ j, (staleTLB j).valid = 0 ∧ (∀ k, (staleTLB k).valid = 0 → j ≤ k) ∧
      update_tlb 7 3 100 101 staleTLB = Function.update staleTLB j (newEntry 7 3 101) ∧
      ∀ k, (staleTLB k).valid ≠ 0 → update_tlb 7 3 100 101 staleTLB k = staleTLB k :=
  ⟨by decide, by decide,
    update_tlb_fills_first_invalid staleTLB 7 3 100 101 (by decide) (by decide)⟩

/-- C7: when all 16 slots are valid, none holds page `p`, and the clock reading is not earlier
than any stored `last_accessed`, `update_tlb(p, f)` overwrites the slot with the smallest
`last_accessed`, the lowest index among the slots sharing that value, and leaves the other 15
slots unchanged. -/
theorem update_tlb_evicts_oldest (tlb : TLB) (p : Nat) (f now_scan now_write : Int)
    (hvalid : ∀ k, (tlb k).valid ≠ 0) (_hnew : ∀ k, (tlb k).page_number ≠ p)
    (hnow : ∀ k, (tlb k).last_accessed ≤ now_scan) :
    ∃ m, (∀ k, (tlb m).last_accessed ≤ (tlb k).last_accessed) ∧
      (∀ k, (tlb k).last_accessed = (tlb m).last_accessed → m ≤ k) ∧
      update_tlb p f now_scan now_write tlb = Function.update tlb m (newEntry p f now_write) := by
  obtain ⟨m, hidx, hmin, hfirst⟩ := update_tlb_index_all_valid now_scan tlb hvalid hnow
  refine ⟨m, hmin, fun k hk => ?_, ?_⟩
  · by_contra hlt
    have := hfirst k (not_le.mp hlt)
    omega
  · rw [update_tlb_eq_write, hidx, TLB.write_eq_update]

/-- C7 on `fullTLB` for the new page 40 at clock reading 100. -/
theorem update_tlb_evicts_oldest_witness :
    (∀ k, (fullTLB k).valid ≠ 0) ∧ (∀ k, (fullTLB k).page_number ≠ 40) ∧
    (∀ k, (fullTLB k).last_accessed ≤ 100) ∧
    ∃ m, (∀ k, (fullTLB m).last_accessed ≤ (fullTLB k).last_accessed) ∧
      (∀ k, (fullTLB k).last_accessed = (fullTLB m).last_accessed → m ≤ k) ∧
      update_tlb 40 40 100 101 fullTLB = Function.update fullTLB m (newEntry 40 40 101) :=
  ⟨by decide, by decide, by decide,
    update_tlb_evicts_oldest fullTLB 40 40 100 101 (by decide) (by decide) (by decide)⟩

/-- C8: `consult_tlb(p)` returns the frame number of the lowest-index valid entry whose page
number is `p` when there is one, and `FRAME_NUMBER_NOT_FOUND` when no valid entry holds `p`
(whatever the invalid slots contain). -/
theorem consult_tlb_result (tlb : TLB) (p : Nat) (now_entry now_hit : Int) :
    ((∃ i, (tlb i).holds p) →
      ∃ j, (tlb j).holds p ∧ (∀ k, (tlb k).holds p → j ≤ k) ∧
        (consult_tlb p now_entry now_hit tlb).1 = (tlb j).frame_number) ∧
    ((∀ k, ¬ ((tlb k).valid ≠ 0 ∧ (tlb k).page_number = p)) →
      (consult_tlb p now_entry now_hit tlb).1 = FRAME_NUMBER_NOT_FOUND) := by
  rcases consult_tlb_spec p now_entry now_hit tlb with ⟨hno, hr⟩ | ⟨j, hj, hmin, hr⟩
  · exact ⟨fun ⟨i, hi⟩ => absurd hi (hno i), fun _ => by rw [hr]⟩
  · exact ⟨fun _ => ⟨j, hj, hmin, by rw [hr]⟩, fun hno => absurd hj (hno j)⟩

/-- C8 on `staleTLB`: page 5 hits in slot 0, page 0 (the stale page number of the invalid
slots) misses. -/
theorem consult_tlb_result_witness :
    (∃ j, (staleTLB j).holds 5 ∧ (∀ k, (staleTLB k).holds 5 → j ≤ k) ∧
        (consult_tlb 5 100 101 staleTLB).1 = (staleTLB j).frame_number) ∧
    (consult_tlb 0 100 101 staleTLB).1 = FRAME_NUMBER_NOT_FOUND :=
  ⟨(consult_tlb_result staleTLB 5 100 101).1 ⟨0, by decide⟩,
    (consult_tlb_result staleTLB 0 100 101).2 (by decide)⟩

/-- C9: on a miss `consult_tlb(p)` leaves the TLB as it was; on a hit the TLB after the call
is the TLB before it with `last_accessed` of the matched entry (the lowest-index valid entry
for `p`) set to the clock reading, every other field and slot unchanged. -/
theorem consult_tlb_frame (tlb : TLB) (p : Nat) (now_entry now_hit : Int) :
    ((∀ k, ¬ (tlb k).holds p) → (consult_tlb p now_entry now_hit tlb).2 = tlb) ∧
    ((∃ i, (tlb i).holds p) →
      ∃ j, (tlb j).holds p ∧ (∀ k, (tlb k).holds p → j ≤ k) ∧
        (consult_tlb p now_entry now_hit tlb).2 =
          Function.update tlb j
            { page_number := (tlb j).page_number, frame_number := (tlb j).frame_number,
              last_accessed := now_hit, valid := (tlb j).valid }) := by
  rcases consult_tlb_spec p now_entry now_hit tlb with ⟨hno, hr⟩ | ⟨j, hj, hmin, hr⟩
  · exact ⟨fun _ => by rw [hr], fun ⟨i, hi⟩ => absurd hi (hno i)⟩
  · exact ⟨fun hno => absurd hj (hno j), fun _ => ⟨j, hj, hmin, by rw [hr]⟩⟩

/-- C9 on `staleTLB`: a miss for page 0, a hit for page 5. -/
theorem consult_tlb_frame_witness :
    (consult_tlb 0 100 101 staleTLB).2 = staleTLB ∧
    ∃ j, (staleTLB j).holds 5 ∧ (∀ k, (staleTLB k).holds 5 → j ≤ k) ∧
        (consult_tlb 5 100 101 staleTLB).2 =
          Function.update staleTLB j
            { page_number := (staleTLB j).page_number, frame_number := (staleTLB j).frame_number,
              last_accessed := 101, valid := (staleTLB j).valid } :=
  ⟨(consult_tlb_frame staleTLB 0 100 101).1 (by decide),
    (consult_tlb_frame staleTLB 5 100 101).2 ⟨0, by decide⟩⟩

/-- C10: in every state reachable from `initialize_page_table` + `initialize_tlb` by
`translate_and_access_memory` calls, translating a logical address `a` in [0, 65535] (the output
file being opened) computes `frame_number = (a >> 8) & 0xFF` and `physical_address = a`, whether
the TLB or the page table provides the frame. -/
theorem translate_identity (s0 : State) (mem : Nat → Option Nat) (calls : List Call) (s : State)
    (hreach : run mem calls s0.init = some s) (a : Nat) (ha : a ≤ 65535) (clk : Clock) :
    ∃ s' r, translate_and_access_memory true a mem clk s = some (s', some r) ∧
      r.frame_number = (((a >>> 8) &&& 0xFF : Nat) : Int) ∧ r.physical_address = a := by
  obtain ⟨s1, hs1, hinv⟩ := run_identityMapped mem calls s0.init s0.init_identityMapped
  have hs : s1 = s := Option.some.inj (hs1.symm.trans hreach)
  rw [hs] at hinv
  unfold translate_and_access_memory
  rw [if_pos rfl, translate_body_identityMapped a mem clk s hinv]
  refine ⟨_, _, rfl, rfl, ?_⟩
  show (((((a >>> 8) &&& 0xFF : Nat) : Int) * PAGE_SIZE + ((a &&& 0xFF : Nat) : Int))
    % 2 ^ 32).toNat = a
  have h := page_offset_recompose a ha
  have e : (((a >>> 8) &&& 0xFF : Nat) : Int) * PAGE_SIZE + ((a &&& 0xFF : Nat) : Int) =
      (a : Int) := by
    show (((a >>> 8) &&& 0xFF : Nat) : Int) * 256 + ((a &&& 0xFF : Nat) : Int) = (a : Int)
    exact_mod_cast h
  rw [e]
  omega

/-- C10 in the state reached by translating address 256: address 256 is then served by the
TLB, address 65535 by the page table. -/
theorem translate_identity_witness :
    run zeroMem [{ file_opened := true, logical_address := 256, clk := firstClock }]
        State.boot.init = some warmState ∧
    (∃ s' r, translate_and_access_memory true 256 zeroMem secondClock warmState
        = some (s', some r) ∧ r.frame_number = 1 ∧ r.physical_address = 256) ∧
    (∃ s' r, translate_and_access_memory true 65535 zeroMem secondClock warmState
        = some (s', some r) ∧ r.frame_number = 255 ∧ r.physical_address = 65535) :=
  ⟨rfl,
    translate_identity State.boot zeroMem
      [{ file_opened := true, logical_address := 256, clk := firstClock }] warmState rfl
      256 (by decide) secondClock,
    translate_identity State.boot zeroMem
      [{ file_opened := true, logical_address := 256, clk := firstClock }] warmState rfl
      65535 (by decide) secondClock⟩

/-- C11 (as stated) fails: from the freshly initialised state, address 33153 = 129 * 256 + 129
gives page number 129, offset 129 (not 1), frame 129 and physical address 33153 (not 33025). -/
theorem translate_33153_offset_not_one :
    (translate_and_access_memory true 33153 zeroMem firstClock State.boot.init).map
        (fun r => r.2.map fun x => (x.page_number, x.offset, x.frame_number, x.physical_address))
      = some (some (129, 129, 129, 33153)) ∧
    extract_page_number_and_offset 33153 = (129, 129) ∧
    (translate_and_access_memory true 33153 zeroMem firstClock State.boot.init).map
        (fun r => r.2.map fun x => (x.page_number, x.offset, x.frame_number, x.physical_address))
      ≠ some (some (129, 1, 129, 33025)) := by
  decide

/-- C11 (amended): from the freshly initialised state (identity page table, empty TLB),
`translate_and_access_memory(33153)` derives `page_number = 129` and `offset = 129`, resolves
frame 129 from the page table without a page fault, and computes `physical_address = 33153`. -/
theorem translate_33153 (s0 : State) (mem : Nat → Option Nat) (clk : Clock) :
    ∃ s r, translate_and_access_memory true 33153 mem clk s0.init = some (s, some r) ∧
      r.page_number = 129 ∧ r.offset = 129 ∧ r.frame_number = 129 ∧ r.page_fault = false ∧
      r.physical_address = 33153 := by
  unfold translate_and_access_memory
  rw [if_pos rfl, translate_body_identityMapped 33153 mem clk s0.init s0.init_identityMapped]
  exact ⟨_, _, rfl, rfl, rfl, rfl, rfl, rfl⟩

/-- C12: in every state reachable from initialisation by `translate_and_access_memory` calls,
translating the same logical address twice in succession over the same memory yields the same
`physical_address` and the same byte both times, and in the second call `consult_tlb` hits: a
valid entry holds the page, its frame is returned, and that frame is not
`FRAME_NUMBER_NOT_FOUND`, so the page table is not consulted. -/
theorem translate_twice (s0 : State) (mem : Nat → Option Nat) (calls : List Call) (s : State)
    (hreach : run mem calls s0.init = some s) (a : Nat) (clk1 clk2 : Clock) :
    ∃ s1 r1 s2 r2,
      translate_and_access_memory true a mem clk1 s = some (s1, some r1) ∧
      translate_and_access_memory true a mem clk2 s1 = some (s2, some r2) ∧
      r2.physical_address = r1.physical_address ∧ r2.value = r1.value ∧
      ∃ j, (s1.tlb j).holds ((a >>> 8) &&& 0xFF) ∧
        (consult_tlb ((a >>> 8) &&& 0xFF) clk2.consult_entry clk2.consult_hit s1.tlb).1 =
          (s1.tlb j).frame_number ∧
        (s1.tlb j).frame_number ≠ FRAME_NUMBER_NOT_FOUND := by
  obtain ⟨sr, hsr, hinv⟩ := run_identityMapped mem calls s0.init s0.init_identityMapped
  have hs : sr = s := Option.some.inj (hsr.symm.trans hreach)
  rw [hs] at hinv
  have hp : (a >>> 8) &&& 0xFF < NUM_PAGES := page_number_lt a
  have hinv1 : (update_tlb ((a >>> 8) &&& 0xFF) (((a >>> 8) &&& 0xFF : Nat) : Int)
      clk1.update_scan clk1.update_write
      (consult_tlb ((a >>> 8) &&& 0xFF) clk1.consult_entry clk1.consult_hit
        s.tlb).2).identityMapped :=
    update_tlb_identityMapped _ _ _ _ hp (consult_tlb_identityMapped _ _ _ _ hinv.2)
  have hstate1 : State.identityMapped
      { tlb := update_tlb ((a >>> 8) &&& 0xFF) (((a >>> 8) &&& 0xFF : Nat) : Int)
          clk1.update_scan clk1.update_write
          (consult_tlb ((a >>> 8) &&& 0xFF) clk1.consult_entry clk1.consult_hit s.tlb).2,
        page_table := s.page_table } := ⟨hinv.1, hinv1⟩
  obtain ⟨m, hm⟩ := update_tlb_index_range clk1.update_scan
    (consult_tlb ((a >>> 8) &&& 0xFF) clk1.consult_entry clk1.consult_hit s.tlb).2
  have hholds : ∃ i, (update_tlb ((a >>> 8) &&& 0xFF) (((a >>> 8) &&& 0xFF : Nat) : Int)
      clk1.update_scan clk1.update_write
      (consult_tlb ((a >>> 8) &&& 0xFF) clk1.consult_entry clk1.consult_hit s.tlb).2 i).holds
        ((a >>> 8) &&& 0xFF) := by
    refine ⟨m, ?_⟩
    rw [update_tlb_eq_write, hm, TLB.write_eq_update, Function.update_same]
    exact ⟨by simp [newEntry], rfl⟩
  obtain ⟨j, hj, _, hres⟩ :=
    consult_tlb_hit_frame ((a >>> 8) &&& 0xFF) clk2.consult_entry clk2.consult_hit _ hholds
  refine ⟨_, _, _, _, translate_and_access_memory_eq_identityMapped a mem clk1 s hinv,
    translate_and_access_memory_eq_identityMapped a mem clk2 _ hstate1, rfl, rfl, j, hj, hres, ?_⟩
  have hfr := (hinv1 j hj.1).2
  have hlt := (hinv1 j hj.1).1
  show _ ≠ (-1 : Int)
  dsimp only at hfr ⊢
  omega

/-- C12 from the initial state, for address 256 translated twice. -/
theorem translate_twice_witness :
    run zeroMem [] State.boot.init = some State.boot.init ∧
    ∃ s1 r1 s2 r2,
      translate_and_access_memory true 256 zeroMem firstClock State.boot.init
        = some (s1, some r1) ∧
      translate_and_access_memory true 256 zeroMem secondClock s1 = some (s2, some r2) ∧
      r2.physical_address = r1.physical_address ∧ r2.value = r1.value ∧
      ∃ j, (s1.tlb j).holds ((256 >>> 8) &&& 0xFF) ∧
        (consult_tlb ((256 >>> 8) &&& 0xFF) secondClock.consult_entry secondClock.consult_hit
          s1.tlb).1 = (s1.tlb j).frame_number ∧
        (s1.tlb j).frame_number ≠ FRAME_NUMBER_NOT_FOUND :=
  ⟨rfl, translate_twice State.boot zeroMem [] State.boot.init rfl 256 firstClock secondClock⟩

/-- C13: for every logical address `a` in [0, 65535], the page number `(a >> 8) & 0xFF` and the
offset `a & 0xFF` satisfy `page_number * 256 + offset = a`; for every unsigned 32-bit `a`, both
lie in [0, 255]. These are the page number and offset every call of the translator uses. -/
theorem decomposition_correct (a : Nat) :
    (a ≤ 65535 →
      (extract_page_number_and_offset a).1 * 256 + (extract_page_number_and_offset a).2 = a) ∧
    (a < 2 ^ 32 →
      (extract_page_number_and_offset a).1 ≤ 255 ∧ (extract_page_number_and_offset a).2 ≤ 255) ∧
    ∀ (mem : Nat → Option Nat) (clk : Clock) (s s2 : State) (r : Access),
      translate_body a mem clk s = some (s2, r) →
        (r.page_number, r.offset) = extract_page_number_and_offset a := by
  refine ⟨fun ha => page_offset_recompose a ha, fun _ => ⟨?_, ?_⟩,
    fun mem clk s s2 r h => translate_body_decomposition a mem clk s s2 r h⟩
  · have h : (a >>> 8) &&& 0xFF < 256 := page_number_lt a
    show (a >>> 8) &&& 0xFF ≤ 255
    omega
  · have h := offset_lt a
    show a &&& 0xFF ≤ 255
    omega

/-- C13 at address 64434 = 251 * 256 + 178. -/
theorem decomposition_correct_witness :
    extract_page_number_and_offset 64434 = (251, 178) ∧
    (extract_page_number_and_offset 64434).1 * 256 + (extract_page_number_and_offset 64434).2
      = 64434 ∧
    (extract_page_number_and_offset 64434).1 ≤ 255 ∧
    (extract_page_number_and_offset 64434).2 ≤ 255 :=
  ⟨by decide, (decomposition_correct 64434).1 (by decide),
    (decomposition_correct 64434).2.1 (by decide)⟩

/-- C14: when `consult_tlb` misses for the page `p = (a >> 8) & 0xFF`, `page_table[p]` is the
unmapped sentinel, and the store holds a byte at the two indices the call reads
(`mem[logical_address]` in the page-fault branch, then `mem[p * 256 + (a & 0xFF)]`),
`translate_and_access_memory(a)` takes the page-fault branch, sets `page_table[p] = p`, leaves
every other page-table entry unchanged, and computes frame `p` and
`physical_address = p * 256 + (a & 0xFF)`, reading the byte stored there. -/
theorem page_fault_hook (s : State) (a : Nat) (mem : Nat → Option Nat) (clk : Clock)
    (fault_byte byte : Nat)
    (hmiss : ∀ k, ¬ (s.tlb k).holds ((a >>> 8) &&& 0xFF))
    (hunmapped : get_frame_number_from_page_table s.page_table ((a >>> 8) &&& 0xFF) =
      some FRAME_NUMBER_NOT_FOUND)
    (hfault_read : mem a = some fault_byte)
    (hread : mem (((a >>> 8) &&& 0xFF) * 256 + (a &&& 0xFF)) = some byte) :
    ∃ s2 r, translate_and_access_memory true a mem clk s = some (s2, some r) ∧
      r.page_fault = true ∧ r.fault_value = some fault_byte ∧
      get_frame_number_from_page_table s2.page_table ((a >>> 8) &&& 0xFF) =
        some (((a >>> 8) &&& 0xFF : Nat) : Int) ∧
      (∀ q : Nat, q < 256 → q ≠ (a >>> 8) &&& 0xFF →
        get_frame_number_from_page_table s2.page_table q =
          get_frame_number_from_page_table s.page_table q) ∧
      r.frame_number = (((a >>> 8) &&& 0xFF : Nat) : Int) ∧
      r.physical_address = ((a >>> 8) &&& 0xFF) * 256 + (a &&& 0xFF) ∧
      r.value = some byte := by
  have hpa := physical_address_small _ _ (page_number_lt a) (offset_lt a)
  unfold translate_and_access_memory
  rw [if_pos rfl, translate_body_miss_unmapped a mem clk s hmiss hunmapped]
  refine ⟨_, _, rfl, rfl, hfault_read, ?_, fun q hq hne => ?_, rfl, hpa, ?_⟩
  · unfold get_frame_number_from_page_table
    rw [dif_pos (page_number_lt a)]
    dsimp only
    rw [Function.update_same]
  · have hq2 : q < NUM_PAGES := hq
    have hne2 : (⟨q, hq2⟩ : Fin NUM_PAGES) ≠ ⟨(a >>> 8) &&& 0xFF, page_number_lt a⟩ :=
      fun h => hne (Fin.mk.inj h)
    unfold get_frame_number_from_page_table
    rw [dif_pos hq2, dif_pos hq2]
    dsimp only
    rw [Function.update_noteq hne2]
  · show mem _ = some byte
    rw [hpa]
    exact hread

/-- C14 on a state with every page unmapped and a memory of 65536 bytes, for address
300 = 1 * 256 + 44. -/
theorem page_fault_hook_witness :
    (∀ k, ¬ (unmappedState.tlb k).holds ((300 >>> 8) &&& 0xFF)) ∧
    get_frame_number_from_page_table unmappedState.page_table ((300 >>> 8) &&& 0xFF) =
      some FRAME_NUMBER_NOT_FOUND ∧
    zeroMem 300 = some 0 ∧
    zeroMem (((300 >>> 8) &&& 0xFF) * 256 + (300 &&& 0xFF)) = some 0 ∧
    ∃ s2 r, translate_and_access_memory true 300 zeroMem firstClock unmappedState
        = some (s2, some r) ∧
      r.page_fault = true ∧ r.fault_value = some 0 ∧
      get_frame_number_from_page_table s2.page_table ((300 >>> 8) &&& 0xFF) =
        some (((300 >>> 8) &&& 0xFF : Nat) : Int) ∧
      (∀ q : Nat, q < 256 → q ≠ (300 >>> 8) &&& 0xFF →
        get_frame_number_from_page_table s2.page_table q =
          get_frame_number_from_page_table unmappedState.page_table q) ∧
      r.frame_number = (((300 >>> 8) &&& 0xFF : Nat) : Int) ∧
      r.physical_address = ((300 >>> 8) &&& 0xFF) * 256 + (300 &&& 0xFF) ∧
      r.value = some 0 :=
  ⟨by decide, by decide, by decide, by decide,
    page_fault_hook unmappedState 300 zeroMem firstClock 0 0 (by decide) (by decide)
      (by decide) (by decide)⟩

/-- C15: in every state reachable from `initialize_page_table` + `initialize_tlb` by
`translate_and_access_memory` calls, for every unsigned 32-bit logical address the call is
defined (the page-table index is below `NUM_PAGES`), the page-fault branch is not taken (the
frame is not `FRAME_NUMBER_NOT_FOUND`, `mem[logical_address]` is not read), and the
`physical_address` used to index `mem` is below 65536. -/
theorem no_fault_no_out_of_bounds (s0 : State) (mem : Nat → Option Nat) (calls : List Call)
    (s : State) (hreach : run mem calls s0.init = some s) (a : Nat) (_ha : a < 2 ^ 32)
    (clk : Clock) :
    ∃ s2 r, translate_and_access_memory true a mem clk s = some (s2, some r) ∧
      r.page_number < NUM_PAGES ∧ r.frame_number ≠ FRAME_NUMBER_NOT_FOUND ∧
      r.page_fault = false ∧ r.fault_value = none ∧
      r.physical_address < 65536 ∧ r.value = mem r.physical_address := by
  obtain ⟨s1, hs1, hinv⟩ := run_identityMapped mem calls s0.init s0.init_identityMapped
  have hs : s1 = s := Option.some.inj (hs1.symm.trans hreach)
  rw [hs] at hinv
  unfold translate_and_access_memory
  rw [if_pos rfl, translate_body_identityMapped a mem clk s hinv]
  have hp : (a >>> 8) &&& 0xFF < 256 := page_number_lt a
  have ho := offset_lt a
  refine ⟨_, _, rfl, page_number_lt a, ?_, rfl, rfl, ?_, rfl⟩
  · show (((a >>> 8) &&& 0xFF : Nat) : Int) ≠ -1
    omega
  · show (((((a >>> 8) &&& 0xFF : Nat) : Int) * PAGE_SIZE + ((a &&& 0xFF : Nat) : Int))
      % 2 ^ 32).toNat < 65536
    rw [physical_address_small _ _ hp ho]
    omega

/-- C15 in the state reached by translating address 256, for the address 4294967295. -/
theorem no_fault_no_out_of_bounds_witness :
    run zeroMem [{ file_opened := true, logical_address := 256, clk := firstClock }]
        State.boot.init = some warmState ∧
    ∃ s2 r, translate_and_access_memory true 4294967295 zeroMem secondClock warmState
        = some (s2, some r) ∧
      r.page_number < NUM_PAGES ∧ r.frame_number ≠ FRAME_NUMBER_NOT_FOUND ∧
      r.page_fault = false ∧ r.fault_value = none ∧
      r.physical_address < 65536 ∧ r.value = zeroMem r.physical_address :=
  ⟨rfl, no_fault_no_out_of_bounds State.boot zeroMem
    [{ file_opened := true, logical_address := 256, clk := firstClock }] warmState rfl
    4294967295 (by decide) secondClock⟩

/-- C17: for every page table, every `p`, `q` in [0, 255] and every frame `f`,
`update_page_table(p, f)` succeeds, after it `get_frame_number_from_page_table(p)` returns `f`
and `get_frame_number_from_page_table(q)` for `q ≠ p` returns what it returned before. The
lookup only reads the table: the table after it is the table before it. -/
theorem page_table_update_lookup (page_table : PageTable) (p q : Nat) (f : Int)
    (hp : p < 256) (hq : q < 256) :
    ∃ updated, update_page_table page_table p f = some updated ∧
      get_frame_number_from_page_table updated p = some f ∧
      (q ≠ p → get_frame_number_from_page_table updated q =
        get_frame_number_from_page_table page_table q) := by
  have hp2 : p < NUM_PAGES := hp
  have hq2 : q < NUM_PAGES := hq
  refine ⟨Function.update page_table ⟨p, hp2⟩ f, ?_, ?_, fun hne => ?_⟩
  · unfold update_page_table
    rw [dif_pos hp2]
  · unfold get_frame_number_from_page_table
    rw [dif_pos hp2, Function.update_same]
  · unfold get_frame_number_from_page_table
    have hne2 : (⟨q, hq2⟩ : Fin NUM_PAGES) ≠ ⟨p, hp2⟩ := fun h => hne (Fin.mk.inj h)
    rw [dif_pos hq2, dif_pos hq2, Function.update_noteq hne2]

/-- C17 on the initial page table: after `update_page_table(5, 10)` page 5 maps to frame 10 and
page 6 still maps to frame 6. -/
theorem page_table_update_lookup_witness :
    ∃ updated, update_page_table (initialize_page_table State.boot.page_table) 5 10
        = some updated ∧
      get_frame_number_from_page_table updated 5 = some 10 ∧
      ((6 : Nat) ≠ 5 → get_frame_number_from_page_table updated 6 =
        get_frame_number_from_page_table (initialize_page_table State.boot.page_table) 6) :=
  page_table_update_lookup (initialize_page_table State.boot.page_table) 5 6 10
    (by decide) (by decide)

/-- C18: after `initialize_page_table`, whatever the table held before,
`get_frame_number_from_page_table(i)` returns `i` for every page number `i` in [0, 255], and no
entry holds the unmapped sentinel. -/
theorem initialize_page_table_identity (page_table : PageTable) :
    (∀ i : Nat, i < 256 →
      get_frame_number_from_page_table (initialize_page_table page_table) i = some (i : Int)) ∧
    ∀ j : Fin NUM_PAGES, initialize_page_table page_table j ≠ FRAME_NUMBER_NOT_FOUND := by
  refine ⟨fun i hi => ?_, fun j => ?_⟩
  · have hi2 : i < NUM_PAGES := hi
    unfold get_frame_number_from_page_table
    rw [dif_pos hi2]
    rfl
  · show (j.val : Int) ≠ -1
    omega

/-- C18 on a table that was all unmapped before: page 255 maps to frame 255. -/
theorem initialize_page_table_identity_witness :
    get_frame_number_from_page_table (initialize_page_table unmappedState.page_table) 255
      = some 255 :=
  (initialize_page_table_identity unmappedState.page_table).1 255 (by decide)

/-- C19 (as stated) fails: after `initialize_tlb` the `frame_number` of slot 0 is
`FRAME_NUMBER_NOT_FOUND` = -1, not zero. -/
theorem initialize_tlb_frame_not_zero :
    (initialize_tlb State.boot.tlb 0).frame_number = -1 ∧
    (initialize_tlb State.boot.tlb 0).frame_number ≠ 0 := by
  decide

/-- C19 (amended): after `initialize_tlb`, whatever the TLB held before, every one of the 16
slots is invalid with `page_number` and `last_accessed` zero and `frame_number` set to
`FRAME_NUMBER_NOT_FOUND`, so `consult_tlb(p)` is a miss for every page `p` and leaves the TLB as
it is. -/
theorem initialize_tlb_empty (tlb : TLB) :
    (∀ i : Fin TLB_ENTRIES, initialize_tlb tlb i =
      { page_number := 0, frame_number := FRAME_NUMBER_NOT_FOUND, last_accessed := 0,
        valid := 0 }) ∧
    ∀ (p : Nat) (now_entry now_hit : Int),
      consult_tlb p now_entry now_hit (initialize_tlb tlb) =
        (FRAME_NUMBER_NOT_FOUND, initialize_tlb tlb) := by
  refine ⟨fun i => rfl, fun p now_entry now_hit => ?_⟩
  exact consult_tlb_loop_miss p now_hit (initialize_tlb tlb) TLB_ENTRIES 0 (-1) now_entry
    (fun k _ hk => hk.1 rfl)

/-- C20: in every state reachable from `initialize_page_table` + `initialize_tlb` by
`translate_and_access_memory` calls, every valid TLB entry `(p, f)` satisfies `p < 256`,
`f ≠ FRAME_NUMBER_NOT_FOUND` and `page_table[p] = f`; so a hit of `consult_tlb` returns the
frame the page table holds for the page, and `translate_and_access_memory` computes the same
physical address (and reads the same byte) as the table-only translator of
`tempCodeRunnerFile.c` on its initialised page table. -/
theorem tlb_page_table_coherent (s0 : State) (mem : Nat → Option Nat) (calls : List Call)
    (s : State) (hreach : run mem calls s0.init = some s) :
    (∀ k : Fin TLB_ENTRIES, (s.tlb k).valid ≠ 0 →
      (s.tlb k).page_number < 256 ∧ (s.tlb k).frame_number ≠ FRAME_NUMBER_NOT_FOUND ∧
      get_frame_number_from_page_table s.page_table (s.tlb k).page_number =
        some (s.tlb k).frame_number) ∧
    (∀ (p : Nat) (now_entry now_hit : Int), (∃ i, (s.tlb i).holds p) →
      some (consult_tlb p now_entry now_hit s.tlb).1 =
        get_frame_number_from_page_table s.page_table p) ∧
    ∀ (a : Nat) (clk : Clock) (page_table : PageTable),
      ∃ s2 r, translate_and_access_memory true a mem clk s = some (s2, some r) ∧
        tempCodeRunnerFile.translate_and_access_memory (initialize_page_table page_table) a mem
          = some (some (r.physical_address, r.value)) := by
  obtain ⟨s', hs', hinv'⟩ := run_identityMapped mem calls s0.init s0.init_identityMapped
  have hs : s' = s := Option.some.inj (hs'.symm.trans hreach)
  rw [hs] at hinv'
  have hentry : ∀ k : Fin TLB_ENTRIES, (s.tlb k).valid ≠ 0 →
      (s.tlb k).page_number < 256 ∧ (s.tlb k).frame_number ≠ FRAME_NUMBER_NOT_FOUND ∧
      get_frame_number_from_page_table s.page_table (s.tlb k).page_number =
        some (s.tlb k).frame_number := by
    intro k hk
    obtain ⟨hlt, hfr⟩ := hinv'.2 k hk
    refine ⟨hlt, ?_, ?_⟩
    · rw [hfr]
      show ((_ : Nat) : Int) ≠ -1
      omega
    · unfold get_frame_number_from_page_table
      rw [dif_pos hlt, hinv'.1, hfr]
  refine ⟨hentry, fun p now_entry now_hit hhit => ?_, fun a clk page_table => ?_⟩
  · obtain ⟨j, hj, _, hres⟩ := consult_tlb_hit_frame p now_entry now_hit s.tlb hhit
    rw [hres, ← (hentry j hj.1).2.2, hj.2]
  · unfold translate_and_access_memory
    rw [if_pos rfl, translate_body_identityMapped a mem clk s hinv']
    refine ⟨_, _, rfl, ?_⟩
    unfold tempCodeRunnerFile.translate_and_access_memory
    have hne : initialize_page_table page_table ⟨(a >>> 8) &&& 0xFF, page_number_lt a⟩ ≠
        FRAME_NUMBER_NOT_FOUND := by
      show ((((a >>> 8) &&& 0xFF : Nat)) : Int) ≠ -1
      omega
    dsimp only
    rw [dif_pos (page_number_lt a), if_pos hne]
    rfl

/-- C20 in the state reached by translating address 256. -/
theorem tlb_page_table_coherent_witness :
    run zeroMem [{ file_opened := true, logical_address := 256, clk := firstClock }]
        State.boot.init = some warmState ∧
    (warmState.tlb 0).valid ≠ 0 ∧
    ((warmState.tlb 0).page_number < 256 ∧
      (warmState.tlb 0).frame_number ≠ FRAME_NUMBER_NOT_FOUND ∧
      get_frame_number_from_page_table warmState.page_table (warmState.tlb 0).page_number =
        some (warmState.tlb 0).frame_number) :=
  ⟨rfl, by decide,
    (tlb_page_table_coherent State.boot zeroMem
      [{ file_opened := true, logical_address := 256, clk := firstClock }] warmState rfl).1 0
      (by decide)⟩

end Paging
